import Mathlib

/-!
Verification development for the metrics pre-aggregation engine in
src/relay-metrics/src/aggregation.rs.

Modelling conventions:
* Machine integers (u64, u32, usize) are modelled as Nat; saturating u64
  arithmetic is made explicit where the source uses it.
* Floating point values (f64 counters, distribution samples, gauge
  components) are modelled as exact rationals.  The FloatOrd total order on
  non-NaN floats is the rational order.
* Rust String is modelled as RString: the UTF-8 content together with the
  allocated capacity in bytes.  Rust string equality and ordering compare
  only the content; String::capacity returns the capacity field.
* HashMap and BTreeMap are modelled as association lists; BTreeMap keeps its
  entries sorted by key.
* Wall-clock and monotonic time enter the aggregator only through
  UnixTimestamp::now (parameter now) and AggregatorConfig::get_flush_time
  (parameter flushAt wherever a new queued bucket is created); both are
  passed explicitly.
-/

namespace Relay

/-- Fixed size in bytes of the BucketKey struct (mem::size_of::<BucketKey>()
in the source; a positive platform-dependent constant). -/
def BUCKET_KEY_SIZE : ℕ := 144

/-- Fixed size in bytes of the BucketValue enum (mem::size_of::<BucketValue>()
in the source; a positive platform-dependent constant). -/
def BUCKET_VALUE_SIZE : ℕ := 48

/-- mem::size_of::<SetType>() where SetType = u32. -/
def SET_TYPE_SIZE : ℕ := 4

/-- mem::size_of::<DistributionType>() where DistributionType = f64. -/
def DISTRIBUTION_TYPE_SIZE : ℕ := 8

/-- mem::size_of::<Count>() where Count = u32. -/
def COUNT_SIZE : ℕ := 4

/-- Largest u64 value. -/
def U64_MAX : ℕ := 2 ^ 64 - 1

/-- u64 saturating addition. -/
def satAdd64 (a b : ℕ) : ℕ := min (a + b) U64_MAX

/-- Rust String: UTF-8 content plus allocated capacity in bytes.  Equality
and ordering in the source compare only the content. -/
structure RString where
  data : String
  cap : ℕ
  deriving DecidableEq, Repr

/-- A freshly allocated string whose capacity equals its byte length. -/
def RString.ofString (s : String) : RString := ⟨s, s.utf8ByteSize⟩

/-- Byte length of the content (String::len in Rust). -/
def RString.byteLen (s : RString) : ℕ := s.data.utf8ByteSize

/-- The four metric aggregation kinds. -/
inductive MetricType where
  | counter
  | distribution
  | set
  | gauge
  deriving DecidableEq, Repr

/-- MetricUnit is an opaque token: none, or a named unit such as
millisecond.  The engine treats it as part of the bucket identity.
Modelled from the spec: the MetricUnit type lives in relay-common, which is
not part of the provided sources. -/
def MetricUnit := Option String
  deriving DecidableEq, Repr

/-- The MetricUnit::None token. -/
def MetricUnit.none : MetricUnit := Option.none

/-- MetricUnit::is_none. -/
def MetricUnit.is_none (u : MetricUnit) : Bool := (u : Option String).isNone

/-- Parsing of a MetricUnit token from its string form; the empty string
denotes the None unit.  Modelled from the spec: opaque token, None or a
named unit. -/
def MetricUnit.ofString (s : String) : MetricUnit :=
  if s = "" then Option.none else Option.some s

/-- ProjectKey: opaque 32-char identifier compared by bytes (Copy in the
source, so it carries no heap capacity). -/
def ProjectKey := String
  deriving DecidableEq, Repr

/-- A snapshot of values within a gauge bucket (GaugeValue in the source). -/
structure GaugeValue where
  max : ℚ
  min : ℚ
  sum : ℚ
  last : ℚ
  count : ℕ
  deriving DecidableEq, Repr

/-- GaugeValue::single: a gauge snapshot from a single value. -/
def GaugeValue.single (value : ℚ) : GaugeValue :=
  { max := value, min := value, sum := value, last := value, count := 1 }

/-- GaugeValue::insert: inserts a new value into the gauge. -/
def GaugeValue.insert (g : GaugeValue) (value : ℚ) : GaugeValue :=
  { max := Max.max g.max value
    min := Min.min g.min value
    sum := g.sum + value
    last := value
    count := g.count + 1 }

/-- GaugeValue::merge: merges two gauge snapshots; last is taken from the
second operand. -/
def GaugeValue.merge (g other : GaugeValue) : GaugeValue :=
  { max := Max.max g.max other.max
    min := Min.min g.min other.min
    sum := g.sum + other.sum
    last := other.last
    count := g.count + other.count }

/-- GaugeValue::avg. -/
def GaugeValue.avg (g : GaugeValue) : ℚ :=
  if 0 < g.count then g.sum / (g.count : ℚ) else 0

/-- Sorted insertion of a (value, count) increment into the BTreeMap of a
distribution, adding count to an existing entry or materializing a new one. -/
def dbump : List (ℚ × ℕ) → ℚ → ℕ → List (ℚ × ℕ)
  | [], v, n => [(v, n)]
  | (w, c) :: rest, v, n =>
    if v = w then (w, c + n) :: rest
    else if v < w then (v, n) :: (w, c) :: rest
    else (w, c) :: dbump rest v n

/-- DistributionValue: ordered mapping from sample to positive count, plus a
cached total length. -/
structure DistributionValue where
  values : List (ℚ × ℕ)
  length : ℕ
  deriving DecidableEq, Repr

/-- DistributionValue::new. -/
def DistributionValue.new : DistributionValue := ⟨[], 0⟩

/-- DistributionValue::insert_multi: adds a value count times; the cached
length always grows by count, and a zero count materializes no entry. -/
def DistributionValue.insertMulti (d : DistributionValue) (v : ℚ) (n : ℕ) :
    DistributionValue :=
  { values := if n = 0 then d.values else dbump d.values v n
    length := d.length + n }

/-- DistributionValue::insert. -/
def DistributionValue.insert (d : DistributionValue) (v : ℚ) : DistributionValue :=
  d.insertMulti v 1

/-- Extend impl for (f64, Count) pairs: insert_multi of every pair of the
other distribution (DistributionValue::merge / lhs.extend(&rhs)). -/
def DistributionValue.extend (d other : DistributionValue) : DistributionValue :=
  other.values.foldl (fun acc vc => acc.insertMulti vc.1 vc.2) d

/-- All individual samples in ascending order, each unique value repeated
count times (DistributionValue::iter_values). -/
def DistributionValue.expand (d : DistributionValue) : List ℚ :=
  d.values.flatMap (fun vc => List.replicate vc.2 vc.1)

/-- Sorted insertion into the BTreeSet of set members. -/
def sinsert : List ℕ → ℕ → List ℕ
  | [], x => [x]
  | y :: rest, x =>
    if x = y then y :: rest
    else if x < y then x :: y :: rest
    else y :: sinsert rest x

/-- BTreeSet extend: insert every element of the other set. -/
def sextend (s : List ℕ) (other : List ℕ) : List ℕ :=
  other.foldl sinsert s

/-- The aggregated value of a metric bucket (BucketValue in the source). -/
inductive BucketValue where
  | counter (v : ℚ)
  | distribution (d : DistributionValue)
  | set (s : List ℕ)
  | gauge (g : GaugeValue)
  deriving DecidableEq, Repr

/-- BucketValue::ty. -/
def BucketValue.ty : BucketValue → MetricType
  | .counter _ => .counter
  | .distribution _ => .distribution
  | .set _ => .set
  | .gauge _ => .gauge

/-- BucketValue::cost: fixed enum size plus the dynamically allocated
component. -/
def BucketValue.cost : BucketValue → ℕ
  | .counter _ => BUCKET_VALUE_SIZE
  | .set s => BUCKET_VALUE_SIZE + SET_TYPE_SIZE * s.length
  | .gauge _ => BUCKET_VALUE_SIZE
  | .distribution d =>
      BUCKET_VALUE_SIZE + d.values.length * (DISTRIBUTION_TYPE_SIZE + COUNT_SIZE)

/-- A single submitted metric value (MetricValue in the crate root). -/
inductive MetricValue where
  | counter (v : ℚ)
  | distribution (v : ℚ)
  | set (v : ℕ)
  | gauge (v : ℚ)
  deriving DecidableEq, Repr

/-- MetricValue::ty. -/
def MetricValue.ty : MetricValue → MetricType
  | .counter _ => .counter
  | .distribution _ => .distribution
  | .set _ => .set
  | .gauge _ => .gauge

/-- From<MetricValue> for BucketValue. -/
def MetricValue.intoBucketValue : MetricValue → BucketValue
  | .counter v => .counter v
  | .distribution v => .distribution (DistributionValue.new.insert v)
  | .set v => .set [v]
  | .gauge v => .gauge (GaugeValue.single v)

/-- A single metric submission (Metric in the crate root).  Modelled from
the spec, section 3: sample = project, name, type, unit, timestamp, tags,
value; the Metric struct itself lives outside the provided sources. -/
structure Metric where
  name : RString
  unit : MetricUnit
  timestamp : ℕ
  tags : List (RString × RString)
  value : MetricValue

/-- The aggregation error taxonomy (AggregateMetricsErrorKind). -/
inductive AggregateMetricsError where
  | invalidCharacters
  | invalidTimestamp
  | invalidTypes
  | invalidStringLength
  | totalLimitExceeded
  | projectLimitExceeded
  deriving DecidableEq, Repr

/-- A value mergeable into a BucketValue: either a single MetricValue or a
whole BucketValue (the two MergeValue impls in the source). -/
inductive MVal where
  | metric (v : MetricValue)
  | bucket (v : BucketValue)

/-- MergeValue::merge_into: aggregation succeeds only when the variants
agree; on a mismatch the error is returned before any mutation. -/
def MVal.mergeInto : MVal → BucketValue → Except AggregateMetricsError BucketValue
  | .bucket (.counter rhs), .counter lhs => .ok (.counter (lhs + rhs))
  | .bucket (.distribution rhs), .distribution lhs => .ok (.distribution (lhs.extend rhs))
  | .bucket (.set rhs), .set lhs => .ok (.set (sextend lhs rhs))
  | .bucket (.gauge rhs), .gauge lhs => .ok (.gauge (lhs.merge rhs))
  | .metric (.counter v), .counter lhs => .ok (.counter (lhs + v))
  | .metric (.distribution v), .distribution lhs => .ok (.distribution (lhs.insert v))
  | .metric (.set v), .set lhs => .ok (.set (sinsert lhs v))
  | .metric (.gauge v), .gauge lhs => .ok (.gauge (lhs.insert v))
  | _, _ => .error .invalidTypes

/-- MergeValue: Into<BucketValue>. -/
def MVal.intoBucketValue : MVal → BucketValue
  | .metric v => v.intoBucketValue
  | .bucket v => v

/-- Content projection of a tag map, as compared by Rust BTreeMap equality. -/
def tagsData (tags : List (RString × RString)) : List (String × String) :=
  tags.map (fun kv => (kv.1.data, kv.2.data))

/-- The composite bucket identity (BucketKey in the source). -/
structure BucketKey where
  project_key : ProjectKey
  timestamp : ℕ
  metric_name : RString
  metric_type : MetricType
  metric_unit : MetricUnit
  tags : List (RString × RString)

/-- Derived Rust equality of bucket keys: every field compared by content
(string capacities do not participate). -/
def BucketKey.keyEq (a b : BucketKey) : Bool :=
  (a.project_key : String) == b.project_key &&
  a.timestamp == b.timestamp &&
  a.metric_name.data == b.metric_name.data &&
  a.metric_type == b.metric_type &&
  (a.metric_unit : Option String) == b.metric_unit &&
  tagsData a.tags == tagsData b.tags

/-- BucketKey::cost: fixed struct size plus the allocated capacity of the
name and of every tag key and tag value. -/
def BucketKey.cost (k : BucketKey) : ℕ :=
  BUCKET_KEY_SIZE + k.metric_name.cap +
    k.tags.foldl (fun acc kv => acc + kv.1.cap + kv.2.cap) 0

/-- The cost formula as the specification words it: fixed struct size plus
the byte length of the name plus the byte lengths of every tag key and tag
value.  Stated for comparison with BucketKey.cost. -/
def BucketKey.costSpec (k : BucketKey) : ℕ :=
  BUCKET_KEY_SIZE + k.metric_name.byteLen +
    k.tags.foldl (fun acc kv => acc + kv.1.byteLen + kv.2.byteLen) 0

/-- Aggregator parameters (AggregatorConfig). -/
structure AggregatorConfig where
  bucket_interval : ℕ
  initial_delay : ℕ
  debounce_delay : ℕ
  max_secs_in_past : ℕ
  max_secs_in_future : ℕ
  max_name_length : ℕ
  max_tag_key_length : ℕ
  max_tag_value_length : ℕ
  max_total_bucket_bytes : Option ℕ
  max_project_key_bucket_bytes : Option ℕ

/-- Default for AggregatorConfig. -/
def AggregatorConfig.default : AggregatorConfig :=
  { bucket_interval := 10
    initial_delay := 30
    debounce_delay := 10
    max_secs_in_past := 5 * 24 * 60 * 60
    max_secs_in_future := 60
    max_name_length := 200
    max_tag_key_length := 200
    max_tag_value_length := 200
    max_total_bucket_bytes := Option.none
    max_project_key_bucket_bytes := Option.none }

/-- AggregatorConfig::get_bucket_timestamp: aligns the center of the
incoming bucket to the configured interval and rejects timestamps outside
the acceptance window around now (UnixTimestamp::now is the parameter). -/
def AggregatorConfig.get_bucket_timestamp (cfg : AggregatorConfig) (now : ℕ)
    (timestamp : ℕ) (bucket_width : ℕ) : Except AggregateMetricsError ℕ :=
  let min_timestamp := now - cfg.max_secs_in_past
  let max_timestamp := satAdd64 now cfg.max_secs_in_future
  let ts := satAdd64 timestamp (bucket_width / 2)
  let output_timestamp := ts / cfg.bucket_interval * cfg.bucket_interval
  if output_timestamp < min_timestamp || max_timestamp < output_timestamp then
    .error .invalidTimestamp
  else
    .ok output_timestamp

/-- Modelled from the spec: protocol::is_valid_mri lives in a source file
not provided here.  Glossary: an MRI is a type prefix, a colon, and a
nonempty namespaced path; the engine checks only the shape. -/
def is_valid_mri (name : String) : Bool :=
  match name.data with
  | t :: ':' :: rest =>
    (t == 'c' || t == 'd' || t == 's' || t == 'g') && !rest.isEmpty
  | _ => false

/-- Modelled from the spec: protocol::is_valid_tag_key lives in a source
file not provided here.  A tag key with invalid characters is dropped; we
model invalid characters as control characters, and require nonemptiness. -/
def is_valid_tag_key (key : String) : Bool :=
  !key.data.isEmpty && key.data.all (fun c => !(c.toNat < 32))

/-- Modelled from the spec: protocol::validate_tag_value lives in a source
file not provided here.  Tag values are normalized in place, stripping
embedded NUL bytes; the allocation is retained. -/
def validate_tag_value (v : RString) : RString :=
  ⟨⟨v.data.data.filter (fun c => c ≠ Char.ofNat 0)⟩, v.cap⟩

/-- Aggregator::validate_metric_name: rejects overlong names with
InvalidStringLength and names that are not MRI-shaped with
InvalidCharacters. -/
def validate_metric_name (key : BucketKey) (cfg : AggregatorConfig) :
    Except AggregateMetricsError BucketKey :=
  if cfg.max_name_length < key.metric_name.byteLen then
    .error .invalidStringLength
  else if !is_valid_mri key.metric_name.data then
    .error .invalidCharacters
  else
    .ok key

/-- Aggregator::validate_metric_tags: drops tags whose key or value is
overlong or whose key has invalid characters, then normalizes the remaining
tag values in place. -/
def validate_metric_tags (key : BucketKey) (cfg : AggregatorConfig) : BucketKey :=
  { key with
    tags := (key.tags.filter (fun kv =>
        decide (kv.1.byteLen ≤ cfg.max_tag_key_length) &&
        decide (kv.2.byteLen ≤ cfg.max_tag_value_length) &&
        is_valid_tag_key kv.1.data)).map
      (fun kv => (kv.1, validate_tag_value kv.2)) }

/-- Aggregator::validate_bucket_key. -/
def validate_bucket_key (key : BucketKey) (cfg : AggregatorConfig) :
    Except AggregateMetricsError BucketKey :=
  (validate_metric_name key cfg).map (fun k => validate_metric_tags k cfg)

/-- Global and per-project byte accounting (CostTracker). -/
structure CostTracker where
  total_cost : ℕ
  cost_per_project_key : List (ProjectKey × ℕ)

/-- The empty tracker (CostTracker::default). -/
def CostTracker.default : CostTracker := ⟨0, []⟩

/-- The tracked cost of a project, 0 when absent. -/
def trackerGet (l : List (ProjectKey × ℕ)) (p : ProjectKey) : ℕ :=
  match l.find? (fun kv => (kv.1 : String) == p) with
  | Option.some kv => kv.2
  | Option.none => 0

/-- HashMap entry().or_insert(0) += c: bump an existing entry or append a
fresh one. -/
def bumpFirst : List (ProjectKey × ℕ) → ProjectKey → ℕ → List (ProjectKey × ℕ)
  | [], p, c => [(p, c)]
  | kv :: rest, p, c =>
    if (kv.1 : String) == p then (kv.1, kv.2 + c) :: rest
    else kv :: bumpFirst rest p c

/-- Remove the entry of a project from the per-project map. -/
def eraseFirst : List (ProjectKey × ℕ) → ProjectKey → List (ProjectKey × ℕ)
  | [], _ => []
  | kv :: rest, p => if (kv.1 : String) == p then rest else kv :: eraseFirst rest p

/-- Overwrite the tracked cost of a project. -/
def setFirst : List (ProjectKey × ℕ) → ProjectKey → ℕ → List (ProjectKey × ℕ)
  | [], _, _ => []
  | kv :: rest, p, n =>
    if (kv.1 : String) == p then (kv.1, n) :: rest else kv :: setFirst rest p n

/-- CostTracker::totals_cost_exceeded. -/
def CostTracker.totals_cost_exceeded (t : CostTracker) (max_total_cost : Option ℕ) : Bool :=
  match max_total_cost with
  | Option.some m => decide (m ≤ t.total_cost)
  | Option.none => false

/-- CostTracker::check_limits_exceeded: the total limit is checked first,
then the per-project limit against the tracked cost (0 when absent). -/
def CostTracker.check_limits_exceeded (t : CostTracker) (project_key : ProjectKey)
    (max_total_cost max_project_cost : Option ℕ) :
    Except AggregateMetricsError Unit :=
  if t.totals_cost_exceeded max_total_cost then
    .error .totalLimitExceeded
  else
    match max_project_cost with
    | Option.some m =>
      if m ≤ trackerGet t.cost_per_project_key project_key then
        .error .projectLimitExceeded
      else
        .ok ()
    | Option.none => .ok ()

/-- CostTracker::add_cost. -/
def CostTracker.add_cost (t : CostTracker) (p : ProjectKey) (c : ℕ) : CostTracker :=
  { total_cost := t.total_cost + c
    cost_per_project_key := bumpFirst t.cost_per_project_key p c }

/-- CostTracker::subtract_cost: defensive subtraction.  An unknown project
is ignored; subtracting more than tracked clamps the project cost to 0; a
project whose cost reaches 0 is removed from the map. -/
def CostTracker.subtract_cost (t : CostTracker) (p : ProjectKey) (c : ℕ) : CostTracker :=
  match t.cost_per_project_key.find? (fun kv => (kv.1 : String) == p) with
  | Option.none => t
  | Option.some kv =>
    if kv.2 < c then
      { total_cost := t.total_cost - kv.2
        cost_per_project_key := eraseFirst t.cost_per_project_key p }
    else if kv.2 - c = 0 then
      { total_cost := t.total_cost - c
        cost_per_project_key := eraseFirst t.cost_per_project_key p }
    else
      { total_cost := t.total_cost - c
        cost_per_project_key := setFirst t.cost_per_project_key p (kv.2 - c) }

/-- A bucket queued in the aggregator with its flush deadline (QueuedBucket;
the monotonic Instant is a natural number). -/
structure QueuedBucket where
  flush_at : ℕ
  value : BucketValue

/-- An output or pre-aggregated input bucket (Bucket in the source). -/
structure Bucket where
  timestamp : ℕ
  width : ℕ
  name : RString
  unit : MetricUnit
  value : BucketValue
  tags : List (RString × RString)

/-- Bucket::from_parts. -/
def Bucket.from_parts (key : BucketKey) (bucket_interval : ℕ) (value : BucketValue) :
    Bucket :=
  { timestamp := key.timestamp
    width := bucket_interval
    name := key.metric_name
    unit := key.metric_unit
    value := value
    tags := key.tags }

/-- Aggregator state machine: Running by default, ShuttingDown after a
shutdown signal carrying a timeout. -/
inductive AggregatorState where
  | running
  | shuttingDown
  deriving DecidableEq, Repr

/-- The aggregator (the receiver recipient is an external collaborator and
is not part of the state). -/
structure Aggregator where
  config : AggregatorConfig
  buckets : List (BucketKey × QueuedBucket)
  state : AggregatorState
  cost_tracker : CostTracker

/-- Aggregator::new. -/
def Aggregator.new (config : AggregatorConfig) : Aggregator :=
  { config := config
    buckets := []
    state := .running
    cost_tracker := CostTracker.default }

/-- Lookup of the live map entry matching a bucket key. -/
def findEntry (l : List (BucketKey × QueuedBucket)) (k : BucketKey) :
    Option (BucketKey × QueuedBucket) :=
  l.find? (fun kv => kv.1.keyEq k)

/-- Replace the queued bucket stored under a key, keeping the stored key. -/
def updateFirst : List (BucketKey × QueuedBucket) → BucketKey → QueuedBucket →
    List (BucketKey × QueuedBucket)
  | [], _, _ => []
  | kv :: rest, k, v =>
    if kv.1.keyEq k then (kv.1, v) :: rest else kv :: updateFirst rest k v

/-- Aggregator::merge_in: validate the key, check cost admission, then merge
into the existing entry or install a new one, and account the added cost.
The source computes the flush deadline of a fresh entry from the wall and
monotonic clocks via get_flush_time; that instant is the flushAt
parameter.  The state is threaded explicitly; every early Err return leaves
it as it was at that point. -/
def Aggregator.merge_in (st : Aggregator) (flushAt : ℕ) (key : BucketKey)
    (value : MVal) : Except AggregateMetricsError Unit × Aggregator :=
  let project_key := key.project_key
  match validate_bucket_key key st.config with
  | .error e => (.error e, st)
  | .ok key =>
    match st.cost_tracker.check_limits_exceeded project_key
        st.config.max_total_bucket_bytes st.config.max_project_key_bucket_bytes with
    | .error e => (.error e, st)
    | .ok _ =>
      match findEntry st.buckets key with
      | Option.some kv =>
        match value.mergeInto kv.2.value with
        | .error e => (.error e, st)
        | .ok merged =>
          let added_cost := merged.cost - kv.2.value.cost
          (.ok (),
            { st with
              buckets := updateFirst st.buckets key { kv.2 with value := merged }
              cost_tracker := st.cost_tracker.add_cost project_key added_cost })
      | Option.none =>
        let bucket := value.intoBucketValue
        let added_cost := key.cost + bucket.cost
        (.ok (),
          { st with
            buckets := st.buckets ++ [(key, ⟨flushAt, bucket⟩)]
            cost_tracker := st.cost_tracker.add_cost project_key added_cost })

/-- Aggregator::insert: align the timestamp with width 0, build the key and
merge the single metric value in. -/
def Aggregator.insert (st : Aggregator) (now flushAt : ℕ) (project_key : ProjectKey)
    (metric : Metric) : Except AggregateMetricsError Unit × Aggregator :=
  match st.config.get_bucket_timestamp now metric.timestamp 0 with
  | .error e => (.error e, st)
  | .ok ts =>
    st.merge_in flushAt
      { project_key := project_key
        timestamp := ts
        metric_name := metric.name
        metric_type := metric.value.ty
        metric_unit := metric.unit
        tags := metric.tags }
      (.metric metric.value)

/-- Aggregator::merge: align the timestamp with the incoming bucket width,
build the key and merge the bucket value in. -/
def Aggregator.merge (st : Aggregator) (now flushAt : ℕ) (project_key : ProjectKey)
    (bucket : Bucket) : Except AggregateMetricsError Unit × Aggregator :=
  match st.config.get_bucket_timestamp now bucket.timestamp bucket.width with
  | .error e => (.error e, st)
  | .ok ts =>
    st.merge_in flushAt
      { project_key := project_key
        timestamp := ts
        metric_name := bucket.name
        metric_type := bucket.value.ty
        metric_unit := bucket.unit
        tags := bucket.tags }
      (.bucket bucket.value)

/-- Aggregator::merge_all: per-element merge; individual failures are logged
and dropped, never propagated. -/
def Aggregator.merge_all (st : Aggregator) (now flushAt : ℕ) (project_key : ProjectKey)
    (buckets : List Bucket) : Aggregator :=
  buckets.foldl (fun s b => (s.merge now flushAt project_key b).2) st

/-- The retain pass of Aggregator::pop_flush_buckets over the live map:
every entry that is forced or whose deadline has elapsed is removed, its key
cost and value cost are subtracted separately, and an output bucket is
assembled from its parts. -/
def sweepGo (force : Bool) (now : ℕ) (bucket_interval : ℕ) :
    List (BucketKey × QueuedBucket) → CostTracker →
    List (BucketKey × QueuedBucket) × CostTracker × List (ProjectKey × Bucket)
  | [], t => ([], t, [])
  | (k, e) :: rest, t =>
    if force || decide (e.flush_at < now) then
      let t1 := t.subtract_cost k.project_key k.cost
      let t2 := t1.subtract_cost k.project_key e.value.cost
      let r := sweepGo force now bucket_interval rest t2
      (r.1, r.2.1, (k.project_key, Bucket.from_parts k bucket_interval e.value) :: r.2.2)
    else
      let r := sweepGo force now bucket_interval rest t
      ((k, e) :: r.1, r.2.1, r.2.2)

/-- Aggregator::pop_flush_buckets: a sweep over the live map at monotonic
instant now; force is set exactly when the aggregator is shutting down.  The
grouping of the returned buckets by project is immaterial here and they are
returned as a flat list of (project, bucket) pairs. -/
def Aggregator.pop_flush_buckets (st : Aggregator) (now : ℕ) :
    List (ProjectKey × Bucket) × Aggregator :=
  let force := st.state == .shuttingDown
  let r := sweepGo force now st.config.bucket_interval st.buckets st.cost_tracker
  (r.2.2, { st with buckets := r.1, cost_tracker := r.2.1 })

/-- Handler<Shutdown>: a message carrying a timeout moves the state to
ShuttingDown; a message without a timeout changes nothing. -/
def Aggregator.handleShutdown (st : Aggregator) (timeout : Option ℕ) : Aggregator :=
  if timeout.isSome then { st with state := .shuttingDown } else st

/-- Handler<InsertMetrics>: the metrics are inserted in order and the first
failing insert aborts the loop with its error. -/
def Aggregator.handleInsertMetrics (st : Aggregator) (now flushAt : ℕ)
    (project_key : ProjectKey) :
    List Metric → Except AggregateMetricsError Unit × Aggregator
  | [] => (.ok (), st)
  | m :: rest =>
    match st.insert now flushAt project_key m with
    | (.error e, st1) => (.error e, st1)
    | (.ok _, st1) => st1.handleInsertMetrics now flushAt project_key rest

/-- Handler<MergeBuckets>: delegates to merge_all. -/
def Aggregator.handleMergeBuckets (st : Aggregator) (now flushAt : ℕ)
    (project_key : ProjectKey) (buckets : List Bucket) : Aggregator :=
  st.merge_all now flushAt project_key buckets

/-- Handler<AcceptsMetrics>: true while the total cost limit is not
reached.  Read-only. -/
def Aggregator.acceptsMetrics (st : Aggregator) : Bool :=
  !(st.cost_tracker.totals_cost_exceeded st.config.max_total_bucket_bytes)

/-- The messages the aggregator actor serializes; the time parameters stand
for the clock readings taken while the message is handled. -/
inductive AggregatorOp where
  | insertMetrics (now flushAt : ℕ) (project_key : ProjectKey) (metrics : List Metric)
  | mergeBuckets (now flushAt : ℕ) (project_key : ProjectKey) (buckets : List Bucket)
  | flushTick (now : ℕ)
  | acceptsMetrics
  | shutdown (timeout : Option ℕ)

/-- The state transition a message performs on the aggregator. -/
def applyOp (op : AggregatorOp) (st : Aggregator) : Aggregator :=
  match op with
  | .insertMetrics now flushAt p ms => (st.handleInsertMetrics now flushAt p ms).2
  | .mergeBuckets now flushAt p bs => st.handleMergeBuckets now flushAt p bs
  | .flushTick now => (st.pop_flush_buckets now).2
  | .acceptsMetrics => st
  | .shutdown timeout => st.handleShutdown timeout

/-- JSON values, whitespace-free; an object is its ordered field list.
Numbers are exact (the source round-trips f64 through the shortest decimal
representation, u64 and u32 exactly). -/
inductive Json where
  | num (q : ℚ)
  | str (s : String)
  | arr (l : List Json)
  | obj (fields : List (String × Json))

/-- First field of the given name, as serde resolves struct fields. -/
def jlookup (fs : List (String × Json)) (k : String) : Option Json :=
  (fs.find? (fun kv => kv.1 == k)).map (fun kv => kv.2)

/-- Deserialize an f64. -/
def asQ : Json → Option ℚ
  | .num q => Option.some q
  | _ => Option.none

/-- Deserialize a string. -/
def asStr : Json → Option String
  | .str s => Option.some s
  | _ => Option.none

/-- A JSON number that is a valid u64. -/
def isU64q (q : ℚ) : Bool := q.den == 1 && decide (0 ≤ q.num) && decide (q.num < 2 ^ 64)

/-- A JSON number that is a valid u32. -/
def isU32q (q : ℚ) : Bool := q.den == 1 && decide (0 ≤ q.num) && decide (q.num < 2 ^ 32)

/-- Deserialize a u64. -/
def asU64 : Json → Option ℕ
  | .num q => if isU64q q then Option.some q.num.toNat else Option.none
  | _ => Option.none

/-- Deserialize a u32 set member. -/
def asU32 : Json → Option ℕ
  | .num q => if isU32q q then Option.some q.num.toNat else Option.none
  | _ => Option.none

/-- The serde tag of a BucketValue variant. -/
def BucketValue.tyTag : BucketValue → String
  | .counter _ => "c"
  | .distribution _ => "d"
  | .set _ => "s"
  | .gauge _ => "g"

/-- Serialize for GaugeValue: field order max, min, sum, last, count. -/
def serializeGauge (g : GaugeValue) : Json :=
  .obj [("max", .num g.max), ("min", .num g.min), ("sum", .num g.sum),
        ("last", .num g.last), ("count", .num (g.count : ℚ))]

/-- The content of the value field: a counter is a number, a distribution
the ascending list of all samples, a set the ascending list of members, a
gauge the five-field object. -/
def serializeBucketValue : BucketValue → Json
  | .counter c => .num c
  | .distribution d => .arr (d.expand.map Json.num)
  | .set s => .arr (s.map (fun n : ℕ => Json.num (n : ℚ)))
  | .gauge g => serializeGauge g

/-- Serialize for the tag map: keys in BTreeMap order. -/
def serializeTags (tags : List (RString × RString)) : Json :=
  .obj (tags.map (fun kv => (kv.1.data, Json.str kv.2.data)))

/-- Serialize for Bucket: fields in declaration order, the unit skipped when
none, the type and value fields flattened in, the tags skipped when empty. -/
def Bucket.serialize (b : Bucket) : Json :=
  .obj ([("timestamp", Json.num (b.timestamp : ℚ)), ("width", Json.num (b.width : ℚ)),
         ("name", Json.str b.name.data)]
    ++ (match (b.unit : Option String) with
        | Option.none => []
        | Option.some u => [("unit", Json.str u)])
    ++ [("type", Json.str b.value.tyTag), ("value", serializeBucketValue b.value)]
    ++ (if b.tags = [] then []
        else [("tags", serializeTags b.tags)]))

/-- Bucket::serialize_all. -/
def Bucket.serialize_all (bs : List Bucket) : Json := .arr (bs.map Bucket.serialize)

/-- Deserialize a list of f64 samples, in order. -/
def parseQList : List Json → Option (List ℚ)
  | [] => Option.some []
  | j :: rest =>
    match asQ j with
    | Option.some q => (parseQList rest).map (fun l => q :: l)
    | Option.none => Option.none

/-- Deserialize a list of u32 set members, in order. -/
def parseU32List : List Json → Option (List ℕ)
  | [] => Option.some []
  | j :: rest =>
    match asU32 j with
    | Option.some n => (parseU32List rest).map (fun l => n :: l)
    | Option.none => Option.none

/-- Deserialize the tag object fields as string pairs, in order. -/
def parseTagPairs : List (String × Json) → Option (List (String × String))
  | [] => Option.some []
  | (k, j) :: rest =>
    match asStr j with
    | Option.some v => (parseTagPairs rest).map (fun l => (k, v) :: l)
    | Option.none => Option.none

/-- The DistributionValue deserializer: visit the sequence inserting each
sample. -/
def buildDist (l : List ℚ) : DistributionValue :=
  l.foldl DistributionValue.insert DistributionValue.new

/-- The BTreeSet deserializer: insert each member. -/
def buildSet (l : List ℕ) : List ℕ := l.foldl sinsert []

/-- BTreeMap insert: sorted insertion by key, overwriting on an equal key. -/
def tbump : List (String × String) → String → String → List (String × String)
  | [], k, v => [(k, v)]
  | (k0, v0) :: rest, k, v =>
    if k = k0 then (k0, v) :: rest
    else if k < k0 then (k, v) :: (k0, v0) :: rest
    else (k0, v0) :: tbump rest k v

/-- The BTreeMap deserializer: insert each visited pair. -/
def buildTags (l : List (String × String)) : List (String × String) :=
  l.foldl (fun m kv => tbump m kv.1 kv.2) []

/-- Deserialize of the flattened BucketValue, dispatching on the type tag. -/
def parseBucketValue : String → Json → Option BucketValue
  | "c", j =>
    match asQ j with
    | Option.some q => Option.some (.counter q)
    | Option.none => Option.none
  | "d", .arr jl => (parseQList jl).map (fun l => .distribution (buildDist l))
  | "s", .arr jl => (parseU32List jl).map (fun l => .set (buildSet l))
  | "g", .obj fs =>
    ((jlookup fs "max").bind asQ).bind (fun mx =>
      ((jlookup fs "min").bind asQ).bind (fun mn =>
        ((jlookup fs "sum").bind asQ).bind (fun sm =>
          ((jlookup fs "last").bind asQ).bind (fun lst =>
            ((jlookup fs "count").bind asU64).map (fun c =>
              .gauge ⟨mx, mn, sm, lst, c⟩)))))
  | _, _ => Option.none

/-- The optional unit field: absent means the None unit, present must be a
string holding the unit token. -/
def parseUnitField (fs : List (String × Json)) : Option MetricUnit :=
  match jlookup fs "unit" with
  | Option.none => Option.some MetricUnit.none
  | Option.some uj => (asStr uj).map MetricUnit.ofString

/-- The optional tags field: absent means the empty map, present must be an
object of string values. -/
def parseTagsField (fs : List (String × Json)) : Option (List (String × String)) :=
  match jlookup fs "tags" with
  | Option.none => Option.some []
  | Option.some (.obj tl) => parseTagPairs tl
  | Option.some _ => Option.none

/-- Deserialize for Bucket: fields resolved by name, the unit defaulting to
none and the tags to the empty map; any missing or ill-typed required field
fails. -/
def Bucket.parse (j : Json) : Option Bucket :=
  match j with
  | .obj fs =>
    ((jlookup fs "timestamp").bind asU64).bind (fun ts =>
      ((jlookup fs "width").bind asU64).bind (fun w =>
        ((jlookup fs "name").bind asStr).bind (fun name =>
          ((jlookup fs "type").bind asStr).bind (fun ty =>
            (jlookup fs "value").bind (fun v =>
              (parseBucketValue ty v).bind (fun value =>
                (parseUnitField fs).bind (fun unit =>
                  (parseTagsField fs).map (fun pairs =>
                    { timestamp := ts
                      width := w
                      name := RString.ofString name
                      unit := unit
                      value := value
                      tags := (buildTags pairs).map
                        (fun kv =>
                          (RString.ofString kv.1, RString.ofString kv.2)) }))))))))
  | _ => Option.none

/-- Deserialize a list of buckets, in order. -/
def parseBucketList : List Json → Option (List Bucket)
  | [] => Option.some []
  | j :: rest =>
    match Bucket.parse j with
    | Option.some b => (parseBucketList rest).map (fun l => b :: l)
    | Option.none => Option.none

/-- Bucket::parse_all. -/
def Bucket.parse_all (j : Json) : Option (List Bucket) :=
  match j with
  | .arr l => parseBucketList l
  | _ => Option.none

/-- The canonical JSON form of a value field, per its type tag: counters a
number, distributions an ascending array of samples, sets a strictly
ascending array of 32-bit members, gauges the max/min/sum/last/count object. -/
inductive CanonicalValue : String → Json → Prop where
  | counter (q : ℚ) : CanonicalValue "c" (.num q)
  | distribution (l : List ℚ) (hl : l.Sorted (· ≤ ·)) :
      CanonicalValue "d" (.arr (l.map Json.num))
  | set (l : List ℕ) (hl : l.Sorted (· < ·)) (hb : ∀ x ∈ l, x < 2 ^ 32) :
      CanonicalValue "s" (.arr (l.map (fun n : ℕ => Json.num (n : ℚ))))
  | gauge (mx mn sm lst : ℚ) (c : ℕ) (hc : c < 2 ^ 64) :
      CanonicalValue "g" (.obj [("max", .num mx), ("min", .num mn), ("sum", .num sm),
        ("last", .num lst), ("count", .num (c : ℚ))])

/-- The canonical JSON form of one bucket object: fields in the order
timestamp, width, name, unit, type, value, tags; the unit omitted when none
and never the empty token; the tags omitted when empty, with strictly
ascending keys. -/
inductive CanonicalBucket : Json → Prop where
  | mk (ts w : ℕ) (hts : ts < 2 ^ 64) (hw : w < 2 ^ 64) (name : String)
      (unit : Option String) (hu : ∀ u, unit = Option.some u → u ≠ "")
      (ty : String) (v : Json) (hv : CanonicalValue ty v)
      (tags : List (String × String)) (htags : (tags.map Prod.fst).Sorted (· < ·)) :
      CanonicalBucket (.obj
        ([("timestamp", Json.num (ts : ℚ)), ("width", Json.num (w : ℚ)),
          ("name", Json.str name)]
         ++ (match unit with
             | Option.none => []
             | Option.some u => [("unit", Json.str u)])
         ++ [("type", Json.str ty), ("value", v)]
         ++ (match tags with
             | [] => []
             | _ :: _ => [("tags", Json.obj (tags.map (fun kv => (kv.1, Json.str kv.2))))])))

/-- The canonical JSON form of a bucket list payload. -/
inductive CanonicalBuckets : Json → Prop where
  | mk (l : List Json) (h : ∀ j ∈ l, CanonicalBucket j) : CanonicalBuckets (.arr l)

/-- Byte cost of one live entry: key cost plus value cost, exactly what
merge_in adds when the entry is created. -/
def entryCost (kv : BucketKey × QueuedBucket) : ℕ := kv.1.cost + kv.2.value.cost

/-- Total byte cost of the live map. -/
def bucketsCost (l : List (BucketKey × QueuedBucket)) : ℕ := (l.map entryCost).sum

/-- Byte cost of the live entries of one project. -/
def projCost (p : ProjectKey) (l : List (BucketKey × QueuedBucket)) : ℕ :=
  ((l.filter (fun kv => (kv.1.project_key : String) == p)).map entryCost).sum

/-- Aggregator states reachable from a fresh aggregator by successful
merge_in calls, flush sweeps and shutdown signals. -/
inductive Reach (cfg : AggregatorConfig) : Aggregator → Prop where
  | init : Reach cfg (Aggregator.new cfg)
  | merge (st : Aggregator) (flushAt : ℕ) (key : BucketKey) (v : MVal)
      (st1 : Aggregator) (h : Reach cfg st)
      (hm : st.merge_in flushAt key v = (.ok (), st1)) : Reach cfg st1
  | sweep (st : Aggregator) (now : ℕ) (h : Reach cfg st) :
      Reach cfg (st.pop_flush_buckets now).2
  | shutdown (st : Aggregator) (timeout : Option ℕ) (h : Reach cfg st) :
      Reach cfg (st.handleShutdown timeout)

/-- The cost-accounting invariant: the tracked total is the summed cost of
the live entries, each tracked per-project cost is the summed cost of that
project's live entries, no zero per-project entry is present, and the
per-project map has no duplicate keys. -/
def AggInv (st : Aggregator) : Prop :=
  st.cost_tracker.total_cost = bucketsCost st.buckets
  ∧ (∀ p, trackerGet st.cost_tracker.cost_per_project_key p = projCost p st.buckets)
  ∧ (∀ kv ∈ st.cost_tracker.cost_per_project_key, kv.2 ≠ 0)
  ∧ (st.cost_tracker.cost_per_project_key.map Prod.fst).Nodup

/-! ## Theorems -/

theorem tags_fold_cap_eq_byteLen (tags : List (RString × RString))
    (h : ∀ kv ∈ tags, kv.1.cap = kv.1.byteLen ∧ kv.2.cap = kv.2.byteLen) (a : ℕ) :
    tags.foldl (fun acc kv => acc + kv.1.cap + kv.2.cap) a =
      tags.foldl (fun acc kv => acc + kv.1.byteLen + kv.2.byteLen) a := by
  induction tags generalizing a with
  | nil => rfl
  | cons kv rest ih =>
    have hk := h kv (List.mem_cons_self kv rest)
    simp only [List.foldl_cons, hk.1, hk.2]
    exact ih (fun x hx => h x (List.mem_cons_of_mem kv hx)) _

/-- C3: the admission check fails with TotalLimitExceeded exactly when the
total limit is set and the tracked total has reached it; otherwise it fails
with ProjectLimitExceeded exactly when the project limit is set and the
tracked cost of the project (0 when absent) has reached it; otherwise it
succeeds.  The total-limit check takes precedence. -/
theorem c3_admission_check (t : CostTracker) (p : ProjectKey) (mt mp : Option ℕ) :
    (t.check_limits_exceeded p mt mp = .error .totalLimitExceeded ↔
      ∃ m, mt = Option.some m ∧ m ≤ t.total_cost)
    ∧ (¬(∃ m, mt = Option.some m ∧ m ≤ t.total_cost) →
        (t.check_limits_exceeded p mt mp = .error .projectLimitExceeded ↔
          ∃ m, mp = Option.some m ∧ m ≤ trackerGet t.cost_per_project_key p))
    ∧ (¬(∃ m, mt = Option.some m ∧ m ≤ t.total_cost) →
        ¬(∃ m, mp = Option.some m ∧ m ≤ trackerGet t.cost_per_project_key p) →
        t.check_limits_exceeded p mt mp = .ok ()) := by
  rcases mt with _ | mtv <;> rcases mp with _ | mpv <;>
    simp [CostTracker.check_limits_exceeded, CostTracker.totals_cost_exceeded] <;>
    split_ifs <;> simp_all

/-- C3 witness: with total cost 5 a total limit of 3 is rejected, and with
no tracked project cost a project limit of 10 admits. -/
theorem c3_admission_check_witness :
    (CostTracker.mk 5 []).check_limits_exceeded "p" (Option.some 3) Option.none =
      .error .totalLimitExceeded
    ∧ (CostTracker.mk 5 []).check_limits_exceeded "p" Option.none (Option.some 10) =
      .ok () := by
  constructor
  · exact (c3_admission_check ⟨5, []⟩ "p" (Option.some 3) Option.none).1.mpr
      ⟨3, rfl, by decide⟩
  · refine (c3_admission_check ⟨5, []⟩ "p" Option.none (Option.some 10)).2.2 ?_ ?_
    · rintro ⟨m, hm, -⟩
      exact Option.noConfusion hm
    · rintro ⟨m, hm, hle⟩
      cases hm
      simp [trackerGet] at hle

/-- C4: whenever get_bucket_timestamp succeeds the returned timestamp is a
multiple of the bucket interval lying within one interval below the
saturated center t + width/2 of the incoming bucket, and it fails with
InvalidTimestamp exactly when the aligned value falls below
now - max_secs_in_past or above now + max_secs_in_future. -/
theorem c4_bucket_timestamp (cfg : AggregatorConfig) (hI : 0 < cfg.bucket_interval)
    (now t w : ℕ) :
    (∀ out, cfg.get_bucket_timestamp now t w = .ok out →
      cfg.bucket_interval ∣ out ∧ out ≤ satAdd64 t (w / 2) ∧
        satAdd64 t (w / 2) < out + cfg.bucket_interval)
    ∧ (cfg.get_bucket_timestamp now t w = .error .invalidTimestamp ↔
        satAdd64 t (w / 2) / cfg.bucket_interval * cfg.bucket_interval <
            now - cfg.max_secs_in_past
        ∨ satAdd64 now cfg.max_secs_in_future <
            satAdd64 t (w / 2) / cfg.bucket_interval * cfg.bucket_interval) := by
  have hdm := Nat.div_add_mod (satAdd64 t (w / 2)) cfg.bucket_interval
  rw [Nat.mul_comm] at hdm
  have hmod : satAdd64 t (w / 2) % cfg.bucket_interval < cfg.bucket_interval :=
    Nat.mod_lt _ hI
  constructor
  · intro out hout
    simp only [AggregatorConfig.get_bucket_timestamp] at hout
    split at hout
    · exact Except.noConfusion hout
    · cases hout
      refine ⟨⟨_, (Nat.mul_comm _ _).symm⟩, Nat.div_mul_le_self _ _, ?_⟩
      omega
  · simp only [AggregatorConfig.get_bucket_timestamp]
    split
    · rename_i hcond
      simp only [Bool.or_eq_true, decide_eq_true_eq] at hcond
      simp only [true_iff]
      exact hcond
    · rename_i hcond
      simp only [Bool.or_eq_true, decide_eq_true_eq, not_or] at hcond
      constructor
      · intro h
        exact Except.noConfusion h
      · intro h
        omega

/-- C4 witness: with the default configuration, a sample at second 1000003
seen at now = 1000000 aligns to 1000000, a multiple of 10 within the bucket
interval below the center, and alignment succeeds. -/
theorem c4_bucket_timestamp_witness :
    0 < AggregatorConfig.default.bucket_interval
    ∧ (AggregatorConfig.default.get_bucket_timestamp 1000000 1000003 0 = .ok 1000000 →
        AggregatorConfig.default.bucket_interval ∣ 1000000
        ∧ 1000000 ≤ satAdd64 1000003 (0 / 2)
        ∧ satAdd64 1000003 (0 / 2) < 1000000 + AggregatorConfig.default.bucket_interval) := by
  refine ⟨by decide, ?_⟩
  exact (c4_bucket_timestamp AggregatorConfig.default (by decide) 1000000 1000003 0).1 1000000

/-- C6 counterexample: a key whose five-byte name c:foo sits in an
eight-byte allocation costs the struct size plus eight, not plus five: the
source sums String::capacity, not the byte length. -/
theorem c6_key_cost_counterexample :
    BucketKey.cost
        { project_key := "a"
          timestamp := 0
          metric_name := ⟨"c:foo", 8⟩
          metric_type := .counter
          metric_unit := MetricUnit.none
          tags := [] } ≠
      BucketKey.costSpec
        { project_key := "a"
          timestamp := 0
          metric_name := ⟨"c:foo", 8⟩
          metric_type := .counter
          metric_unit := MetricUnit.none
          tags := [] } := by
  decide

/-- C6 amended: cost() equals the fixed struct size plus the allocated
capacity of the name plus the sum of tag key and tag value capacities; when
every such capacity equals the byte length of its string, this is the fixed
struct size plus the name byte length plus the sum of tag byte lengths. -/
theorem c6_key_cost (k : BucketKey)
    (hname : k.metric_name.cap = k.metric_name.byteLen)
    (htags : ∀ kv ∈ k.tags, kv.1.cap = kv.1.byteLen ∧ kv.2.cap = kv.2.byteLen) :
    k.cost = k.costSpec := by
  unfold BucketKey.cost BucketKey.costSpec
  rw [hname, tags_fold_cap_eq_byteLen k.tags htags]

/-- C6 witness: a freshly allocated key with one tag, every capacity equal
to the byte length, satisfies the byte-length cost formula. -/
theorem c6_key_cost_witness :
    BucketKey.cost
        { project_key := "a"
          timestamp := 0
          metric_name := RString.ofString "c:foo"
          metric_type := .counter
          metric_unit := MetricUnit.none
          tags := [(RString.ofString "route", RString.ofString "idx")] } =
      BucketKey.costSpec
        { project_key := "a"
          timestamp := 0
          metric_name := RString.ofString "c:foo"
          metric_type := .counter
          metric_unit := MetricUnit.none
          tags := [(RString.ofString "route", RString.ofString "idx")] } := by
  refine c6_key_cost _ rfl ?_
  intro kv hkv
  simp only [List.mem_singleton] at hkv
  subst hkv
  exact ⟨rfl, rfl⟩

/-- C8: merging two gauges in either order yields the same min, max, sum and
count (pointwise minimum, maximum and the two sums), while last is always
the second operand's last; merge is therefore non-commutative exactly when
the two last components differ. -/
theorem c8_gauge_merge (A B : GaugeValue) :
    (A.merge B).max = (B.merge A).max
    ∧ (A.merge B).min = (B.merge A).min
    ∧ (A.merge B).sum = (B.merge A).sum
    ∧ (A.merge B).count = (B.merge A).count
    ∧ (A.merge B).max = Max.max A.max B.max
    ∧ (A.merge B).min = Min.min A.min B.min
    ∧ (A.merge B).sum = A.sum + B.sum
    ∧ (A.merge B).count = A.count + B.count
    ∧ (A.merge B).last = B.last
    ∧ (B.merge A).last = A.last
    ∧ (¬A.merge B = B.merge A ↔ ¬A.last = B.last) := by
  have hcomm : A.merge B = B.merge A ↔ A.last = B.last := by
    simp only [GaugeValue.merge, GaugeValue.mk.injEq]
    constructor
    · intro h
      exact h.2.2.2.1.symm
    · intro h
      exact ⟨max_comm _ _, min_comm _ _, add_comm _ _, h.symm, Nat.add_comm _ _⟩
  exact ⟨max_comm _ _, min_comm _ _, add_comm _ _, Nat.add_comm _ _, rfl, rfl, rfl, rfl,
    rfl, rfl, not_congr hcomm⟩

theorem merge_in_error_eq (st : Aggregator) (flushAt : ℕ) (key : BucketKey) (v : MVal)
    (e : AggregateMetricsError) (st1 : Aggregator)
    (h : st.merge_in flushAt key v = (.error e, st1)) : st1 = st := by
  simp only [Aggregator.merge_in] at h
  repeat' split at h
  all_goals simp_all

theorem insert_error_eq (st : Aggregator) (now flushAt : ℕ) (p : ProjectKey) (m : Metric)
    (e : AggregateMetricsError) (st1 : Aggregator)
    (h : st.insert now flushAt p m = (.error e, st1)) : st1 = st := by
  simp only [Aggregator.insert] at h
  split at h
  · simp_all
  · exact merge_in_error_eq _ _ _ _ _ _ h

theorem merge_error_eq (st : Aggregator) (now flushAt : ℕ) (p : ProjectKey) (b : Bucket)
    (e : AggregateMetricsError) (st1 : Aggregator)
    (h : st.merge now flushAt p b = (.error e, st1)) : st1 = st := by
  simp only [Aggregator.merge] at h
  split at h
  · simp_all
  · exact merge_in_error_eq _ _ _ _ _ _ h

/-- C2: an insert or merge that returns any taxonomy error leaves the live
bucket map and the cost tracker exactly as they were. -/
theorem c2_error_no_mutation (st : Aggregator) (now flushAt : ℕ) (p : ProjectKey) :
    (∀ (m : Metric) (e : AggregateMetricsError) (st1 : Aggregator),
      st.insert now flushAt p m = (.error e, st1) →
      st1.buckets = st.buckets ∧ st1.cost_tracker = st.cost_tracker)
    ∧ (∀ (b : Bucket) (e : AggregateMetricsError) (st1 : Aggregator),
      st.merge now flushAt p b = (.error e, st1) →
      st1.buckets = st.buckets ∧ st1.cost_tracker = st.cost_tracker) := by
  constructor
  · intro m e st1 h
    rw [insert_error_eq st now flushAt p m e st1 h]
    exact ⟨rfl, rfl⟩
  · intro b e st1 h
    rw [merge_error_eq st now flushAt p b e st1 h]
    exact ⟨rfl, rfl⟩

/-- C2 witness: inserting a metric whose name is not MRI-shaped fails with
InvalidCharacters and leaves the fresh aggregator untouched. -/
theorem c2_error_no_mutation_witness :
    (Aggregator.new AggregatorConfig.default).insert 1000000 7 "p"
        { name := RString.ofString "bad"
          unit := MetricUnit.none
          timestamp := 1000000
          tags := []
          value := .counter 1 } =
      (.error .invalidCharacters,
        (Aggregator.new AggregatorConfig.default).insert 1000000 7 "p"
          { name := RString.ofString "bad"
            unit := MetricUnit.none
            timestamp := 1000000
            tags := []
            value := .counter 1 } |>.2)
    ∧ ((Aggregator.new AggregatorConfig.default).insert 1000000 7 "p"
        { name := RString.ofString "bad"
          unit := MetricUnit.none
          timestamp := 1000000
          tags := []
          value := .counter 1 } |>.2).buckets = (Aggregator.new AggregatorConfig.default).buckets
    ∧ ((Aggregator.new AggregatorConfig.default).insert 1000000 7 "p"
        { name := RString.ofString "bad"
          unit := MetricUnit.none
          timestamp := 1000000
          tags := []
          value := .counter 1 } |>.2).cost_tracker =
      (Aggregator.new AggregatorConfig.default).cost_tracker := by
  have h : (Aggregator.new AggregatorConfig.default).insert 1000000 7 "p"
      { name := RString.ofString "bad"
        unit := MetricUnit.none
        timestamp := 1000000
        tags := []
        value := .counter 1 } =
      (.error .invalidCharacters, Aggregator.new AggregatorConfig.default) := by rfl
  have h2 := (c2_error_no_mutation (Aggregator.new AggregatorConfig.default) 1000000 7 "p").1
    { name := RString.ofString "bad"
      unit := MetricUnit.none
      timestamp := 1000000
      tags := []
      value := .counter 1 } .invalidCharacters (Aggregator.new AggregatorConfig.default) h
  rw [h]
  exact ⟨rfl, h2.1, h2.2⟩

/-- C10: inserting a list of metrics processes them in order and stops at
the first failure: the failing insert's error is returned, every metric
before it stays merged (the resulting state is the state after the
successful prefix), and the metrics after it are never processed. -/
theorem c10_insert_not_atomic (st : Aggregator) (now flushAt : ℕ) (p : ProjectKey)
    (l1 : List Metric) (m : Metric) (l2 : List Metric) (e : AggregateMetricsError)
    (h1 : (st.handleInsertMetrics now flushAt p l1).1 = .ok ())
    (h2 : ((st.handleInsertMetrics now flushAt p l1).2.insert now flushAt p m).1 =
      .error e) :
    st.handleInsertMetrics now flushAt p (l1 ++ m :: l2) =
      (.error e, (st.handleInsertMetrics now flushAt p l1).2) := by
  induction l1 generalizing st with
  | nil =>
    have hpre : st.handleInsertMetrics now flushAt p [] = (.ok (), st) := rfl
    rw [hpre] at h2
    dsimp only at h2
    rw [List.nil_append, hpre]
    dsimp only
    rcases hm : st.insert now flushAt p m with ⟨r, st1⟩
    rw [hm] at h2
    cases r with
    | ok u => exact absurd h2 (by simp)
    | error e0 =>
      have he : e0 = e := by simpa using h2
      have hst : st1 = st := insert_error_eq st now flushAt p m e0 st1 hm
      simp only [Aggregator.handleInsertMetrics]
      rw [hm, he, hst]
  | cons a rest ih =>
    have hstep : ∀ (s : Aggregator) (ms : List Metric),
        s.handleInsertMetrics now flushAt p (a :: ms) =
          match s.insert now flushAt p a with
          | (.error e1, s1) => (.error e1, s1)
          | (.ok _, s1) => s1.handleInsertMetrics now flushAt p ms :=
      fun s ms => rfl
    rcases ha : st.insert now flushAt p a with ⟨r, st1⟩
    cases r with
    | error e0 =>
      exfalso
      rw [hstep st rest, ha] at h1
      dsimp only at h1
      exact absurd h1 (by simp)
    | ok u =>
      rw [hstep st rest, ha] at h1 h2
      dsimp only at h1 h2
      rw [List.cons_append, hstep st (rest ++ m :: l2), ha]
      dsimp only
      rw [hstep st rest, ha]
      dsimp only
      exact ih st1 h1 h2

/-- C10 witness: a valid counter insert followed by an invalid-name metric
returns InvalidCharacters, keeps the first metric merged, and ignores the
rest of the list. -/
theorem c10_insert_not_atomic_witness :
    ((Aggregator.new AggregatorConfig.default).handleInsertMetrics 1000000 7 "p"
        [{ name := RString.ofString "c:foo"
           unit := MetricUnit.none
           timestamp := 1000000
           tags := []
           value := .counter 1 }]).1 = .ok ()
    ∧ (((Aggregator.new AggregatorConfig.default).handleInsertMetrics 1000000 7 "p"
        [{ name := RString.ofString "c:foo"
           unit := MetricUnit.none
           timestamp := 1000000
           tags := []
           value := .counter 1 }]).2.insert 1000000 7 "p"
        { name := RString.ofString "bad"
          unit := MetricUnit.none
          timestamp := 1000000
          tags := []
          value := .counter 2 }).1 = .error .invalidCharacters
    ∧ (Aggregator.new AggregatorConfig.default).handleInsertMetrics 1000000 7 "p"
        ([{ name := RString.ofString "c:foo"
            unit := MetricUnit.none
            timestamp := 1000000
            tags := []
            value := .counter 1 }] ++
          { name := RString.ofString "bad"
            unit := MetricUnit.none
            timestamp := 1000000
            tags := []
            value := .counter 2 } ::
          [{ name := RString.ofString "c:later"
             unit := MetricUnit.none
             timestamp := 1000000
             tags := []
             value := .counter 3 }]) =
      (.error .invalidCharacters,
        ((Aggregator.new AggregatorConfig.default).handleInsertMetrics 1000000 7 "p"
          [{ name := RString.ofString "c:foo"
             unit := MetricUnit.none
             timestamp := 1000000
             tags := []
             value := .counter 1 }]).2) := by
  refine ⟨rfl, rfl, ?_⟩
  exact c10_insert_not_atomic (Aggregator.new AggregatorConfig.default) 1000000 7 "p"
    [{ name := RString.ofString "c:foo"
       unit := MetricUnit.none
       timestamp := 1000000
       tags := []
       value := .counter 1 }]
    { name := RString.ofString "bad"
      unit := MetricUnit.none
      timestamp := 1000000
      tags := []
      value := .counter 2 }
    [{ name := RString.ofString "c:later"
       unit := MetricUnit.none
       timestamp := 1000000
       tags := []
       value := .counter 3 }]
    .invalidCharacters rfl rfl

theorem merge_in_state (st : Aggregator) (flushAt : ℕ) (key : BucketKey) (v : MVal) :
    (st.merge_in flushAt key v).2.state = st.state := by
  simp only [Aggregator.merge_in]
  repeat' split
  all_goals rfl

theorem insert_state (st : Aggregator) (now flushAt : ℕ) (p : ProjectKey) (m : Metric) :
    (st.insert now flushAt p m).2.state = st.state := by
  simp only [Aggregator.insert]
  split
  · rfl
  · exact merge_in_state _ _ _ _

theorem merge_state (st : Aggregator) (now flushAt : ℕ) (p : ProjectKey) (b : Bucket) :
    (st.merge now flushAt p b).2.state = st.state := by
  simp only [Aggregator.merge]
  split
  · rfl
  · exact merge_in_state _ _ _ _

theorem merge_all_state (st : Aggregator) (now flushAt : ℕ) (p : ProjectKey)
    (bs : List Bucket) : (st.merge_all now flushAt p bs).state = st.state := by
  induction bs generalizing st with
  | nil => rfl
  | cons b rest ih =>
    simp only [Aggregator.merge_all, List.foldl_cons]
    calc ((st.merge now flushAt p b).2.merge_all now flushAt p rest).state
        = (st.merge now flushAt p b).2.state := ih _
      _ = st.state := merge_state _ _ _ _ _

theorem handleInsertMetrics_state (st : Aggregator) (now flushAt : ℕ) (p : ProjectKey)
    (ms : List Metric) : (st.handleInsertMetrics now flushAt p ms).2.state = st.state := by
  induction ms generalizing st with
  | nil => rfl
  | cons m rest ih =>
    simp only [Aggregator.handleInsertMetrics]
    rcases hm : st.insert now flushAt p m with ⟨r, st1⟩
    have hs : st1.state = st.state := by
      have := insert_state st now flushAt p m
      rw [hm] at this
      exact this
    cases r with
    | error e0 => exact hs
    | ok u => rw [ih st1]; exact hs

theorem pop_flush_buckets_state (st : Aggregator) (now : ℕ) :
    (st.pop_flush_buckets now).2.state = st.state := rfl

/-- C9: only a Shutdown message carrying a timeout changes the aggregator
state, moving it to ShuttingDown; a Shutdown without a timeout is ignored;
the state never leaves ShuttingDown once entered. -/
theorem c9_state_machine :
    (∀ (op : AggregatorOp) (st : Aggregator), st.state = .shuttingDown →
      (applyOp op st).state = .shuttingDown)
    ∧ (∀ (st : Aggregator) (t : ℕ),
      (st.handleShutdown (Option.some t)).state = .shuttingDown)
    ∧ (∀ st : Aggregator, st.handleShutdown Option.none = st)
    ∧ (∀ (op : AggregatorOp) (st : Aggregator),
      (∀ t, op ≠ .shutdown (Option.some t)) → (applyOp op st).state = st.state) := by
  have hpres : ∀ (op : AggregatorOp) (st : Aggregator),
      (∀ t, op ≠ .shutdown (Option.some t)) → (applyOp op st).state = st.state := by
    intro op st hop
    cases op with
    | insertMetrics now flushAt p ms => exact handleInsertMetrics_state st now flushAt p ms
    | mergeBuckets now flushAt p bs => exact merge_all_state st now flushAt p bs
    | flushTick now => exact pop_flush_buckets_state st now
    | acceptsMetrics => rfl
    | shutdown timeout =>
      cases timeout with
      | none => rfl
      | some t => exact absurd rfl (hop t)
  refine ⟨?_, fun st t => rfl, fun st => rfl, hpres⟩
  intro op st hst
  by_cases hop : ∀ t, op ≠ AggregatorOp.shutdown (Option.some t)
  · rw [hpres op st hop]
    exact hst
  · push_neg at hop
    rcases hop with ⟨t, ht⟩
    subst ht
    rfl

/-- C9 witness: a flush tick on a shutting-down aggregator keeps it shutting
down, a Shutdown with timeout 5 moves a fresh aggregator to ShuttingDown,
and a Shutdown without a timeout leaves it untouched. -/
theorem c9_state_machine_witness :
    (applyOp (.flushTick 0)
      ((Aggregator.new AggregatorConfig.default).handleShutdown (Option.some 5))).state =
      .shuttingDown
    ∧ ((Aggregator.new AggregatorConfig.default).handleShutdown (Option.some 5)).state =
      .shuttingDown
    ∧ (Aggregator.new AggregatorConfig.default).handleShutdown Option.none =
      Aggregator.new AggregatorConfig.default
    ∧ (applyOp (.flushTick 3) (Aggregator.new AggregatorConfig.default)).state =
      (Aggregator.new AggregatorConfig.default).state := by
  refine ⟨?_, c9_state_machine.2.1 _ 5, c9_state_machine.2.2.1 _, ?_⟩
  · exact c9_state_machine.1 (.flushTick 0) _ (c9_state_machine.2.1 _ 5)
  · exact c9_state_machine.2.2.2 (.flushTick 3) _ (fun t h => AggregatorOp.noConfusion h)

theorem trackerGet_nil (p : ProjectKey) : trackerGet [] p = 0 := rfl

theorem trackerGet_cons (q : ProjectKey) (n : ℕ) (l : List (ProjectKey × ℕ))
    (p : ProjectKey) :
    trackerGet ((q, n) :: l) p = if ((q : String) == p) = true then n else trackerGet l p := by
  by_cases h : ((q : String) == p) = true <;> simp [trackerGet, List.find?, h]

theorem trackerGet_eq_zero_of_not_mem (l : List (ProjectKey × ℕ)) (p : ProjectKey)
    (h : (p : String) ∉ l.map Prod.fst) : trackerGet l p = 0 := by
  induction l with
  | nil => rfl
  | cons kv rest ih =>
    obtain ⟨q, n⟩ := kv
    simp only [List.map_cons, List.mem_cons, not_or] at h
    rw [trackerGet_cons]
    have hq : ((q : String) == p) = false := by
      simp only [beq_eq_false_iff_ne, ne_eq]
      exact fun hqp => h.1 hqp.symm
    simp [hq]
    exact ih h.2

theorem mem_keys_of_get_ne_zero (l : List (ProjectKey × ℕ)) (p : ProjectKey)
    (h : trackerGet l p ≠ 0) : (p : String) ∈ l.map Prod.fst := by
  by_contra hc
  exact h (trackerGet_eq_zero_of_not_mem l p hc)

theorem trackerGet_bumpFirst_self (l : List (ProjectKey × ℕ)) (p : ProjectKey) (c : ℕ) :
    trackerGet (bumpFirst l p c) p = trackerGet l p + c := by
  induction l with
  | nil => simp [bumpFirst, trackerGet_cons, trackerGet_nil]
  | cons kv rest ih =>
    obtain ⟨q, n⟩ := kv
    by_cases h : ((q : String) == p) = true
    · simp [bumpFirst, h, trackerGet_cons]
    · simp only [bumpFirst, h]
      rw [if_neg (by simp [h]), trackerGet_cons, trackerGet_cons, if_neg (by simp [h]),
        if_neg (by simp [h])]
      exact ih

theorem trackerGet_bumpFirst_ne (l : List (ProjectKey × ℕ)) (p p' : ProjectKey) (c : ℕ)
    (hne : (p' : String) ≠ p) :
    trackerGet (bumpFirst l p c) p' = trackerGet l p' := by
  induction l with
  | nil =>
    simp [bumpFirst, trackerGet_cons, trackerGet_nil]
    intro h
    exact absurd h.symm hne
  | cons kv rest ih =>
    obtain ⟨q, n⟩ := kv
    by_cases h : ((q : String) == p) = true
    · simp only [bumpFirst, h, if_pos]
      rw [trackerGet_cons, trackerGet_cons]
      have hq : (q : String) = p := beq_iff_eq.mp h
      rw [if_neg (by simp [hq]; exact fun he => hne he.symm),
        if_neg (by simp [hq]; exact fun he => hne he.symm)]
    · simp only [bumpFirst, h]
      rw [if_neg (by simp [h]), trackerGet_cons, trackerGet_cons]
      by_cases h2 : ((q : String) == p') = true <;> simp [h2, ih]

theorem bumpFirst_zero_free (l : List (ProjectKey × ℕ)) (p : ProjectKey) (c : ℕ)
    (hz : ∀ kv ∈ l, kv.2 ≠ 0) (hpc : c ≠ 0 ∨ trackerGet l p ≠ 0) :
    ∀ kv ∈ bumpFirst l p c, kv.2 ≠ 0 := by
  induction l with
  | nil =>
    rcases hpc with hc | hg
    · simpa [bumpFirst] using hc
    · exact absurd rfl hg
  | cons kv rest ih =>
    obtain ⟨q, n⟩ := kv
    by_cases h : ((q : String) == p) = true
    · simp only [bumpFirst, h, if_pos]
      intro kv2 hkv2
      rcases List.mem_cons.mp hkv2 with h2 | h2
      · subst h2
        have := hz (q, n) (List.mem_cons_self _ _)
        simp at this ⊢
        omega
      · exact hz kv2 (List.mem_cons_of_mem _ h2)
    · simp only [bumpFirst, h]
      rw [if_neg (by simp [h])]
      intro kv2 hkv2
      rcases List.mem_cons.mp hkv2 with h2 | h2
      · subst h2
        exact hz (q, n) (List.mem_cons_self _ _)
      · refine ih (fun x hx => hz x (List.mem_cons_of_mem _ hx)) ?_ kv2 h2
        rcases hpc with hc | hg
        · exact Or.inl hc
        · right
          rw [trackerGet_cons, if_neg h] at hg
          exact hg

theorem bumpFirst_keys_sub (l : List (ProjectKey × ℕ)) (p : ProjectKey) (c : ℕ) :
    ∀ q ∈ (bumpFirst l p c).map Prod.fst, q ∈ l.map Prod.fst ∨ q = p := by
  induction l with
  | nil => simp [bumpFirst]
  | cons kv rest ih =>
    obtain ⟨q0, n⟩ := kv
    by_cases h : ((q0 : String) == p) = true
    · simp only [bumpFirst, h, if_pos]
      intro q hq
      simp only [List.map_cons, List.mem_cons] at hq ⊢
      tauto
    · simp only [bumpFirst, h]
      rw [if_neg (by simp [h])]
      intro q hq
      simp only [List.map_cons, List.mem_cons] at hq ⊢
      rcases hq with h1 | h1
      · tauto
      · rcases ih q h1 with h2 | h2 <;> tauto

theorem bumpFirst_nodup (l : List (ProjectKey × ℕ)) (p : ProjectKey) (c : ℕ)
    (hn : (l.map Prod.fst).Nodup) : ((bumpFirst l p c).map Prod.fst).Nodup := by
  induction l with
  | nil => simp [bumpFirst]
  | cons kv rest ih =>
    obtain ⟨q0, n⟩ := kv
    simp only [List.map_cons, List.nodup_cons] at hn
    by_cases h : ((q0 : String) == p) = true
    · simp only [bumpFirst, h, if_pos, List.map_cons, List.nodup_cons]
      exact hn
    · simp only [bumpFirst, h]
      rw [if_neg (by simp [h])]
      simp only [List.map_cons, List.nodup_cons]
      refine ⟨?_, ih hn.2⟩
      intro hmem
      rcases bumpFirst_keys_sub rest p c q0 hmem with h2 | h2
      · exact hn.1 h2
      · simp only [beq_eq_false_iff_ne, ne_eq] at h
        simp only [Bool.not_eq_true] at h
        exact (beq_eq_false_iff_ne.mp h) h2

theorem eraseFirst_sublist (l : List (ProjectKey × ℕ)) (p : ProjectKey) :
    (eraseFirst l p).Sublist l := by
  induction l with
  | nil => simp [eraseFirst]
  | cons kv rest ih =>
    by_cases h : ((kv.1 : String) == p) = true
    · simp only [eraseFirst, h, if_pos]
      exact List.sublist_cons_self kv rest
    · simp only [eraseFirst]
      rw [if_neg (by simp [h])]
      exact ih.cons₂ kv

theorem eraseFirst_zero_free (l : List (ProjectKey × ℕ)) (p : ProjectKey)
    (hz : ∀ kv ∈ l, kv.2 ≠ 0) : ∀ kv ∈ eraseFirst l p, kv.2 ≠ 0 :=
  fun kv hkv => hz kv ((eraseFirst_sublist l p).mem hkv)

theorem eraseFirst_nodup (l : List (ProjectKey × ℕ)) (p : ProjectKey)
    (hn : (l.map Prod.fst).Nodup) : ((eraseFirst l p).map Prod.fst).Nodup :=
  hn.sublist ((eraseFirst_sublist l p).map Prod.fst)

theorem trackerGet_eraseFirst_self (l : List (ProjectKey × ℕ)) (p : ProjectKey)
    (hn : (l.map Prod.fst).Nodup) : trackerGet (eraseFirst l p) p = 0 := by
  induction l with
  | nil => rfl
  | cons kv rest ih =>
    obtain ⟨q, n⟩ := kv
    simp only [List.map_cons, List.nodup_cons] at hn
    by_cases h : ((q : String) == p) = true
    · simp only [eraseFirst, h, if_pos]
      apply trackerGet_eq_zero_of_not_mem
      have hq : (q : String) = p := beq_iff_eq.mp h
      rw [← hq]
      exact hn.1
    · simp only [eraseFirst]
      rw [if_neg (by simp [h]), trackerGet_cons, if_neg (by simp [h])]
      exact ih hn.2

theorem trackerGet_eraseFirst_ne (l : List (ProjectKey × ℕ)) (p p' : ProjectKey)
    (hne : (p' : String) ≠ p) :
    trackerGet (eraseFirst l p) p' = trackerGet l p' := by
  induction l with
  | nil => rfl
  | cons kv rest ih =>
    obtain ⟨q, n⟩ := kv
    by_cases h : ((q : String) == p) = true
    · simp only [eraseFirst, h, if_pos]
      rw [trackerGet_cons]
      have hq : (q : String) = p := beq_iff_eq.mp h
      rw [if_neg (by simp [hq]; exact fun he => hne he.symm)]
    · simp only [eraseFirst]
      rw [if_neg (by simp [h]), trackerGet_cons, trackerGet_cons, ih]

theorem setFirst_keys (l : List (ProjectKey × ℕ)) (p : ProjectKey) (n : ℕ) :
    (setFirst l p n).map Prod.fst = l.map Prod.fst := by
  induction l with
  | nil => rfl
  | cons kv rest ih =>
    by_cases h : ((kv.1 : String) == p) = true
    · simp [setFirst, h]
    · simp only [setFirst]
      rw [if_neg (by simp [h])]
      simp [ih]

theorem trackerGet_setFirst_self (l : List (ProjectKey × ℕ)) (p : ProjectKey) (n : ℕ)
    (hmem : (p : String) ∈ l.map Prod.fst) :
    trackerGet (setFirst l p n) p = n := by
  induction l with
  | nil => simp at hmem
  | cons kv rest ih =>
    obtain ⟨q, m⟩ := kv
    by_cases h : ((q : String) == p) = true
    · simp only [setFirst, h, if_pos]
      rw [trackerGet_cons, if_pos h]
    · simp only [setFirst]
      rw [if_neg (by simp [h]), trackerGet_cons, if_neg (by simp [h])]
      apply ih
      simp only [List.map_cons, List.mem_cons] at hmem
      rcases hmem with h1 | h1
      · exact absurd (beq_iff_eq.mpr h1.symm) (by simp [h])
      · exact h1

theorem trackerGet_setFirst_ne (l : List (ProjectKey × ℕ)) (p p' : ProjectKey) (n : ℕ)
    (hne : (p' : String) ≠ p) :
    trackerGet (setFirst l p n) p' = trackerGet l p' := by
  induction l with
  | nil => rfl
  | cons kv rest ih =>
    obtain ⟨q, m⟩ := kv
    by_cases h : ((q : String) == p) = true
    · simp only [setFirst, h, if_pos]
      rw [trackerGet_cons, trackerGet_cons]
      have hq : (q : String) = p := beq_iff_eq.mp h
      rw [if_neg (by simp [hq]; exact fun he => hne he.symm),
        if_neg (by simp [hq]; exact fun he => hne he.symm)]
    · simp only [setFirst]
      rw [if_neg (by simp [h]), trackerGet_cons, trackerGet_cons, ih]

theorem setFirst_zero_free (l : List (ProjectKey × ℕ)) (p : ProjectKey) (n : ℕ)
    (hz : ∀ kv ∈ l, kv.2 ≠ 0) (hn : n ≠ 0) : ∀ kv ∈ setFirst l p n, kv.2 ≠ 0 := by
  induction l with
  | nil => simp [setFirst]
  | cons kv rest ih =>
    obtain ⟨q, m⟩ := kv
    by_cases h : ((q : String) == p) = true
    · simp only [setFirst, h, if_pos]
      intro kv2 hkv2
      rcases List.mem_cons.mp hkv2 with h2 | h2
      · subst h2; exact hn
      · exact hz kv2 (List.mem_cons_of_mem _ h2)
    · simp only [setFirst]
      rw [if_neg (by simp [h])]
      intro kv2 hkv2
      rcases List.mem_cons.mp hkv2 with h2 | h2
      · subst h2; exact hz (q, m) (List.mem_cons_self _ _)
      · exact ih (fun x hx => hz x (List.mem_cons_of_mem _ hx)) kv2 h2

theorem tracker_nil_of_get_zero (l : List (ProjectKey × ℕ))
    (hz : ∀ kv ∈ l, kv.2 ≠ 0) (hg : ∀ p, trackerGet l p = 0) : l = [] := by
  cases l with
  | nil => rfl
  | cons kv rest =>
    obtain ⟨q, n⟩ := kv
    exfalso
    have := hg q
    rw [trackerGet_cons, if_pos (by simp)] at this
    exact hz (q, n) (List.mem_cons_self _ _) this

theorem find?_trackerGet (l : List (ProjectKey × ℕ)) (p : ProjectKey)
    (kv : ProjectKey × ℕ) (h : l.find? (fun kv => (kv.1 : String) == p) = Option.some kv) :
    (kv.1 : String) = p ∧ trackerGet l p = kv.2 := by
  have hp : ((kv.1 : String) == p) = true := by
    have h2 := List.find?_some h
    simpa using h2
  refine ⟨beq_iff_eq.mp hp, ?_⟩
  unfold trackerGet
  rw [h]

theorem add_cost_spec (t : CostTracker) (p : ProjectKey) (c : ℕ)
    (hz : ∀ kv ∈ t.cost_per_project_key, kv.2 ≠ 0)
    (hn : (t.cost_per_project_key.map Prod.fst).Nodup)
    (hpc : c ≠ 0 ∨ trackerGet t.cost_per_project_key p ≠ 0) :
    (t.add_cost p c).total_cost = t.total_cost + c
    ∧ trackerGet (t.add_cost p c).cost_per_project_key p =
        trackerGet t.cost_per_project_key p + c
    ∧ (∀ q, (q : String) ≠ p →
        trackerGet (t.add_cost p c).cost_per_project_key q =
          trackerGet t.cost_per_project_key q)
    ∧ (∀ kv ∈ (t.add_cost p c).cost_per_project_key, kv.2 ≠ 0)
    ∧ ((t.add_cost p c).cost_per_project_key.map Prod.fst).Nodup :=
  ⟨rfl, trackerGet_bumpFirst_self _ _ _,
    fun q hq => trackerGet_bumpFirst_ne _ _ _ _ hq,
    bumpFirst_zero_free _ _ _ hz hpc, bumpFirst_nodup _ _ _ hn⟩

theorem subtract_cost_spec (t : CostTracker) (p : ProjectKey) (c : ℕ)
    (hz : ∀ kv ∈ t.cost_per_project_key, kv.2 ≠ 0)
    (hn : (t.cost_per_project_key.map Prod.fst).Nodup)
    (hc : c ≤ trackerGet t.cost_per_project_key p)
    (hpos : 0 < trackerGet t.cost_per_project_key p) :
    (t.subtract_cost p c).total_cost = t.total_cost - c
    ∧ trackerGet (t.subtract_cost p c).cost_per_project_key p =
        trackerGet t.cost_per_project_key p - c
    ∧ (∀ q, (q : String) ≠ p →
        trackerGet (t.subtract_cost p c).cost_per_project_key q =
          trackerGet t.cost_per_project_key q)
    ∧ (∀ kv ∈ (t.subtract_cost p c).cost_per_project_key, kv.2 ≠ 0)
    ∧ ((t.subtract_cost p c).cost_per_project_key.map Prod.fst).Nodup := by
  unfold CostTracker.subtract_cost
  rcases hfind : t.cost_per_project_key.find? (fun kv => (kv.1 : String) == p) with _ | kv
  · exfalso
    have hg : trackerGet t.cost_per_project_key p = 0 := by
      unfold trackerGet
      rw [hfind]
    omega
  · obtain ⟨hkp, hkv⟩ := find?_trackerGet _ _ _ hfind
    rw [hfind]
    dsimp only
    have hmem : (p : String) ∈ t.cost_per_project_key.map Prod.fst :=
      List.mem_map.mpr ⟨kv, List.mem_of_find?_eq_some hfind, hkp⟩
    split_ifs with h1 h2
    · exfalso
      omega
    · refine ⟨rfl, ?_, ?_, eraseFirst_zero_free _ _ hz, eraseFirst_nodup _ _ hn⟩
      · rw [trackerGet_eraseFirst_self _ _ hn]
        omega
      · intro q hq
        exact trackerGet_eraseFirst_ne _ _ _ hq
    · refine ⟨rfl, ?_, ?_, setFirst_zero_free _ _ _ hz (by omega), ?_⟩
      · rw [trackerGet_setFirst_self _ _ _ hmem]
        omega
      · intro q hq
        exact trackerGet_setFirst_ne _ _ _ _ hq
      · rw [setFirst_keys]
        exact hn

theorem bucketKey_cost_pos (k : BucketKey) : 0 < k.cost := by
  unfold BucketKey.cost BUCKET_KEY_SIZE
  omega

theorem bucketValue_cost_pos (v : BucketValue) : 0 < v.cost := by
  cases v <;> simp [BucketValue.cost, BUCKET_VALUE_SIZE]

theorem entryCost_pos (kv : BucketKey × QueuedBucket) : 0 < entryCost kv :=
  Nat.add_pos_left (bucketKey_cost_pos kv.1) _

theorem bucketsCost_nil : bucketsCost [] = 0 := rfl

theorem bucketsCost_cons (kv : BucketKey × QueuedBucket)
    (l : List (BucketKey × QueuedBucket)) :
    bucketsCost (kv :: l) = entryCost kv + bucketsCost l := by
  simp [bucketsCost]

theorem projCost_nil (p : ProjectKey) : projCost p [] = 0 := rfl

theorem projCost_cons (p : ProjectKey) (kv : BucketKey × QueuedBucket)
    (l : List (BucketKey × QueuedBucket)) :
    projCost p (kv :: l) =
      (if ((kv.1.project_key : String) == p) = true then entryCost kv else 0) +
        projCost p l := by
  by_cases h : ((kv.1.project_key : String) == p) = true <;>
    simp [projCost, List.filter_cons, h]

theorem entryCost_le_projCost (p : ProjectKey) (l : List (BucketKey × QueuedBucket))
    (kv : BucketKey × QueuedBucket) (hmem : kv ∈ l)
    (hp : (kv.1.project_key : String) = p) : entryCost kv ≤ projCost p l := by
  induction l with
  | nil => simp at hmem
  | cons a rest ih =>
    rw [projCost_cons]
    rcases List.mem_cons.mp hmem with h1 | h1
    · subst h1
      rw [if_pos (beq_iff_eq.mpr hp)]
      omega
    · have := ih h1
      split_ifs <;> omega

theorem keyEq_project (a b : BucketKey) (h : a.keyEq b = true) :
    (a.project_key : String) = b.project_key := by
  simp only [BucketKey.keyEq, Bool.and_eq_true, beq_iff_eq] at h
  exact h.1.1.1.1.1

theorem findEntry_mem (l : List (BucketKey × QueuedBucket)) (k : BucketKey)
    (kv : BucketKey × QueuedBucket) (h : findEntry l k = Option.some kv) :
    kv ∈ l ∧ kv.1.keyEq k = true := by
  refine ⟨List.mem_of_find?_eq_some h, ?_⟩
  have h2 := List.find?_some h
  simpa using h2

theorem bucketsCost_updateFirst (l : List (BucketKey × QueuedBucket)) (k : BucketKey)
    (v' : QueuedBucket) (kv : BucketKey × QueuedBucket)
    (h : findEntry l k = Option.some kv) :
    bucketsCost (updateFirst l k v') + kv.2.value.cost =
      bucketsCost l + v'.value.cost := by
  induction l with
  | nil => simp [findEntry, List.find?] at h
  | cons a rest ih =>
    by_cases ha : a.1.keyEq k = true
    · have hkva : kv = a := by
        simp only [findEntry, List.find?, ha] at h
        exact (Option.some.injEq _ _ ▸ h).symm
      subst hkva
      simp only [updateFirst, ha, if_pos, bucketsCost_cons, entryCost]
      omega
    · have h2 : findEntry rest k = Option.some kv := by
        simpa only [findEntry, List.find?, ha] using h
      simp only [updateFirst, ha]
      rw [if_neg (by simp [ha]), bucketsCost_cons, bucketsCost_cons]
      have := ih h2
      omega

theorem projCost_updateFirst_self (l : List (BucketKey × QueuedBucket)) (k : BucketKey)
    (v' : QueuedBucket) (kv : BucketKey × QueuedBucket)
    (h : findEntry l k = Option.some kv) :
    projCost k.project_key (updateFirst l k v') + kv.2.value.cost =
      projCost k.project_key l + v'.value.cost := by
  induction l with
  | nil => simp [findEntry, List.find?] at h
  | cons a rest ih =>
    by_cases ha : a.1.keyEq k = true
    · have hkva : kv = a := by
        simp only [findEntry, List.find?, ha] at h
        exact (Option.some.injEq _ _ ▸ h).symm
      subst hkva
      have hproj : ((kv.1.project_key : String) == k.project_key) = true :=
        beq_iff_eq.mpr (keyEq_project _ _ ha)
      simp only [updateFirst, ha, if_pos]
      rw [projCost_cons, projCost_cons, if_pos hproj, if_pos hproj]
      simp only [entryCost]
      omega
    · have h2 : findEntry rest k = Option.some kv := by
        simpa only [findEntry, List.find?, ha] using h
      simp only [updateFirst, ha]
      rw [if_neg (by simp [ha]), projCost_cons, projCost_cons]
      have := ih h2
      split_ifs <;> omega

theorem projCost_updateFirst_ne (l : List (BucketKey × QueuedBucket)) (k : BucketKey)
    (v' : QueuedBucket) (q : ProjectKey) (hq : (k.project_key : String) ≠ q) :
    projCost q (updateFirst l k v') = projCost q l := by
  induction l with
  | nil => rfl
  | cons a rest ih =>
    by_cases ha : a.1.keyEq k = true
    · have hproj : (a.1.project_key : String) = k.project_key := keyEq_project _ _ ha
      have hne : ((a.1.project_key : String) == q) = false := by
        simp only [beq_eq_false_iff_ne, ne_eq, hproj]
        exact hq
      simp only [updateFirst, ha, if_pos]
      rw [projCost_cons, projCost_cons, hne]
      simp
    · simp only [updateFirst, ha]
      rw [if_neg (by simp [ha]), projCost_cons, projCost_cons, ih]

theorem sinsert_length (l : List ℕ) (x : ℕ) : l.length ≤ (sinsert l x).length := by
  induction l with
  | nil => simp [sinsert]
  | cons y rest ih =>
    simp only [sinsert]
    split_ifs <;> simp <;> omega

theorem sextend_length (other l : List ℕ) : l.length ≤ (sextend l other).length := by
  induction other generalizing l with
  | nil => exact Nat.le_refl _
  | cons y rest ih =>
    calc l.length ≤ (sinsert l y).length := sinsert_length l y
      _ ≤ (sextend (sinsert l y) rest).length := ih (sinsert l y)
      _ = (sextend l (y :: rest)).length := rfl

theorem dbump_length (l : List (ℚ × ℕ)) (v : ℚ) (n : ℕ) :
    l.length ≤ (dbump l v n).length := by
  induction l with
  | nil => simp [dbump]
  | cons y rest ih =>
    obtain ⟨w, c⟩ := y
    simp only [dbump]
    split_ifs <;> simp <;> omega

theorem insertMulti_values_length (d : DistributionValue) (v : ℚ) (n : ℕ) :
    d.values.length ≤ (d.insertMulti v n).values.length := by
  simp only [DistributionValue.insertMulti]
  split_ifs
  · exact Nat.le_refl _
  · exact dbump_length _ _ _

theorem extend_fold_values_length (ps : List (ℚ × ℕ)) (d : DistributionValue) :
    d.values.length ≤
      (ps.foldl (fun acc vc => acc.insertMulti vc.1 vc.2) d).values.length := by
  induction ps generalizing d with
  | nil => exact Nat.le_refl _
  | cons vc rest ih =>
    calc d.values.length ≤ (d.insertMulti vc.1 vc.2).values.length :=
        insertMulti_values_length _ _ _
      _ ≤ _ := ih _

theorem extend_values_length (d r : DistributionValue) :
    d.values.length ≤ (d.extend r).values.length :=
  extend_fold_values_length r.values d

theorem mergeInto_cost_mono (v : MVal) (b b' : BucketValue)
    (h : v.mergeInto b = .ok b') : b.cost ≤ b'.cost := by
  cases v with
  | metric m =>
    cases m <;> cases b <;> simp only [MVal.mergeInto] at h <;>
      (try exact Except.noConfusion h) <;>
      (obtain rfl : _ = b' := by
          injection h) <;>
      simp only [BucketValue.cost]
    · exact Nat.le_refl _
    · exact Nat.add_le_add_left
        (Nat.mul_le_mul_right _ (insertMulti_values_length _ _ 1)) _
    · exact Nat.add_le_add_left (Nat.mul_le_mul_left _ (sinsert_length _ _)) _
    · exact Nat.le_refl _
  | bucket bv =>
    cases bv <;> cases b <;> simp only [MVal.mergeInto] at h <;>
      (try exact Except.noConfusion h) <;>
      (obtain rfl : _ = b' := by
          injection h) <;>
      simp only [BucketValue.cost]
    · exact Nat.le_refl _
    · exact Nat.add_le_add_left
        (Nat.mul_le_mul_right _ (extend_values_length _ _)) _
    · exact Nat.add_le_add_left (Nat.mul_le_mul_left _ (sextend_length _ _)) _
    · exact Nat.le_refl _

theorem bucketsCost_append_single (l : List (BucketKey × QueuedBucket))
    (x : BucketKey × QueuedBucket) :
    bucketsCost (l ++ [x]) = bucketsCost l + entryCost x := by
  simp [bucketsCost]

theorem projCost_append_single (p : ProjectKey) (l : List (BucketKey × QueuedBucket))
    (x : BucketKey × QueuedBucket) :
    projCost p (l ++ [x]) =
      projCost p l +
        (if ((x.1.project_key : String) == p) = true then entryCost x else 0) := by
  by_cases h : ((x.1.project_key : String) == p) = true <;>
    simp [projCost, List.filter_append, List.filter_cons, h]

theorem validate_project (key : BucketKey) (cfg : AggregatorConfig) (key' : BucketKey)
    (h : validate_bucket_key key cfg = .ok key') :
    (key'.project_key : String) = key.project_key := by
  simp only [validate_bucket_key, validate_metric_name] at h
  split_ifs at h <;> simp only [Except.map] at h
  · exact Except.noConfusion h
  · exact Except.noConfusion h
  · have h2 : validate_metric_tags key cfg = key' := by
      injection h
    rw [← h2]
    rfl

theorem merge_in_inv (st : Aggregator) (flushAt : ℕ) (key : BucketKey) (v : MVal)
    (st1 : Aggregator) (hinv : AggInv st)
    (hm : st.merge_in flushAt key v = (.ok (), st1)) : AggInv st1 := by
  obtain ⟨htot, hproj, hz, hn⟩ := hinv
  simp only [Aggregator.merge_in] at hm
  rcases hval : validate_bucket_key key st.config with e | key'
  · rw [hval] at hm
    exact absurd hm (by simp)
  rw [hval] at hm
  dsimp only at hm
  have hvp : (key'.project_key : String) = key.project_key :=
    validate_project key st.config key' hval
  rcases hchk : st.cost_tracker.check_limits_exceeded key.project_key
      st.config.max_total_bucket_bytes st.config.max_project_key_bucket_bytes with e | u
  · rw [hchk] at hm
    exact absurd hm (by simp)
  rw [hchk] at hm
  dsimp only at hm
  rcases hfind : findEntry st.buckets key' with _ | kv
  · -- vacant entry: a fresh queued bucket is appended
    rw [hfind] at hm
    dsimp only at hm
    have hx : ({ st with
        buckets := st.buckets ++ [(key', ⟨flushAt, v.intoBucketValue⟩)]
        cost_tracker := st.cost_tracker.add_cost key.project_key
          (key'.cost + v.intoBucketValue.cost) } : Aggregator) = st1 := by
      simpa using hm
    subst hx
    have hadd := add_cost_spec st.cost_tracker key.project_key
      (key'.cost + v.intoBucketValue.cost) hz hn
      (Or.inl (by have := bucketKey_cost_pos key'; omega))
    obtain ⟨ha1, ha2, ha3, ha4, ha5⟩ := hadd
    refine ⟨?_, ?_, ha4, ha5⟩
    · rw [ha1, htot, bucketsCost_append_single]
      simp [entryCost]
    · intro p
      rw [projCost_append_single]
      by_cases hp : (p : String) = key.project_key
      · subst hp
        rw [ha2, hproj _]
        rw [if_pos (by simp [hvp])]
        simp [entryCost]
      · have hne : ¬(((key', (⟨flushAt, v.intoBucketValue⟩ : QueuedBucket)).1.project_key :
            String) == p) = true := by
          simp only [beq_iff_eq, hvp]
          exact fun he => hp he.symm
        rw [ha3 p hp, hproj p, if_neg hne]
        omega
  · -- occupied entry: the value is merged and the cost delta accounted
    rw [hfind] at hm
    dsimp only at hm
    rcases hmerge : v.mergeInto kv.2.value with e | merged
    · rw [hmerge] at hm
      exact absurd hm (by simp)
    rw [hmerge] at hm
    dsimp only at hm
    have hx : ({ st with
        buckets := updateFirst st.buckets key' { kv.2 with value := merged }
        cost_tracker := st.cost_tracker.add_cost key.project_key
          (merged.cost - kv.2.value.cost) } : Aggregator) = st1 := by
      simpa using hm
    subst hx
    obtain ⟨hkmem, hkeq⟩ := findEntry_mem st.buckets key' kv hfind
    have hkp : (kv.1.project_key : String) = key'.project_key := keyEq_project _ _ hkeq
    have hmono := mergeInto_cost_mono v kv.2.value merged hmerge
    have hple : entryCost kv ≤ projCost key.project_key st.buckets :=
      entryCost_le_projCost _ _ kv hkmem (by rw [hkp, hvp])
    have hget_pos : trackerGet st.cost_tracker.cost_per_project_key key.project_key ≠ 0 := by
      rw [hproj]
      have := entryCost_pos kv
      omega
    have hadd := add_cost_spec st.cost_tracker key.project_key
      (merged.cost - kv.2.value.cost) hz hn (Or.inr hget_pos)
    obtain ⟨ha1, ha2, ha3, ha4, ha5⟩ := hadd
    have hb1 := bucketsCost_updateFirst st.buckets key' { kv.2 with value := merged } kv hfind
    have hb2 := projCost_updateFirst_self st.buckets key' { kv.2 with value := merged } kv hfind
    have hb1' : bucketsCost
        (updateFirst st.buckets key' { flush_at := kv.2.flush_at, value := merged }) +
        kv.2.value.cost = bucketsCost st.buckets + merged.cost := hb1
    have hb2' : projCost key'.project_key
        (updateFirst st.buckets key' { flush_at := kv.2.flush_at, value := merged }) +
        kv.2.value.cost = projCost key'.project_key st.buckets + merged.cost := hb2
    rw [hvp] at hb2'
    refine ⟨?_, ?_, ha4, ha5⟩
    · show (st.cost_tracker.add_cost key.project_key
          (merged.cost - kv.2.value.cost)).total_cost =
        bucketsCost (updateFirst st.buckets key'
          { flush_at := kv.2.flush_at, value := merged })
      rw [ha1, htot]
      omega
    · intro p
      show trackerGet (st.cost_tracker.add_cost key.project_key
          (merged.cost - kv.2.value.cost)).cost_per_project_key p =
        projCost p (updateFirst st.buckets key'
          { flush_at := kv.2.flush_at, value := merged })
      by_cases hp : (p : String) = key.project_key
      · subst hp
        rw [ha2, hproj _]
        omega
      · rw [ha3 p hp, hproj p, projCost_updateFirst_ne st.buckets key' _ p
          (by rw [hvp]; exact fun he => hp he.symm)]

theorem sweepGo_force_nil (now interval : ℕ) (l : List (BucketKey × QueuedBucket))
    (t : CostTracker) : (sweepGo true now interval l t).1 = [] := by
  induction l generalizing t with
  | nil => rfl
  | cons he rest ih =>
    obtain ⟨k, e⟩ := he
    simp only [sweepGo, Bool.true_or, if_pos]
    exact ih _

theorem sweepGo_inv (force : Bool) (now interval : ℕ)
    (l : List (BucketKey × QueuedBucket)) :
    ∀ (t : CostTracker) (C : ℕ) (D : ProjectKey → ℕ),
      t.total_cost = bucketsCost l + C →
      (∀ p, trackerGet t.cost_per_project_key p = projCost p l + D p) →
      (∀ kv ∈ t.cost_per_project_key, kv.2 ≠ 0) →
      (t.cost_per_project_key.map Prod.fst).Nodup →
      (sweepGo force now interval l t).2.1.total_cost =
          bucketsCost (sweepGo force now interval l t).1 + C
      ∧ (∀ p, trackerGet (sweepGo force now interval l t).2.1.cost_per_project_key p =
          projCost p (sweepGo force now interval l t).1 + D p)
      ∧ (∀ kv ∈ (sweepGo force now interval l t).2.1.cost_per_project_key, kv.2 ≠ 0)
      ∧ ((sweepGo force now interval l t).2.1.cost_per_project_key.map Prod.fst).Nodup := by
  induction l with
  | nil =>
    intro t C D h1 h2 h3 h4
    exact ⟨h1, h2, h3, h4⟩
  | cons he rest ih =>
    obtain ⟨k, e⟩ := he
    intro t C D h1 h2 h3 h4
    by_cases hcond : (force || decide (e.flush_at < now)) = true
    · simp only [sweepGo, hcond, if_pos]
      have hget : trackerGet t.cost_per_project_key k.project_key =
          entryCost (k, e) + projCost k.project_key rest + D k.project_key := by
        have h2k := h2 k.project_key
        rw [projCost_cons, if_pos (by simp)] at h2k
        omega
      have hec : entryCost (k, e) = k.cost + e.value.cost := rfl
      have hvpos := bucketValue_cost_pos e.value
      have hkpos := bucketKey_cost_pos k
      have hs1 := subtract_cost_spec t k.project_key k.cost h3 h4
        (by omega) (by omega)
      obtain ⟨hs1t, hs1p, hs1q, hs1z, hs1n⟩ := hs1
      have hget1 : trackerGet (t.subtract_cost k.project_key k.cost).cost_per_project_key
          k.project_key = e.value.cost + projCost k.project_key rest + D k.project_key := by
        rw [hs1p, hget]
        omega
      have hs2 := subtract_cost_spec (t.subtract_cost k.project_key k.cost)
        k.project_key e.value.cost hs1z hs1n (by omega) (by omega)
      obtain ⟨hs2t, hs2p, hs2q, hs2z, hs2n⟩ := hs2
      have hbc : bucketsCost ((k, e) :: rest) = entryCost (k, e) + bucketsCost rest :=
        bucketsCost_cons _ _
      refine ih _ C D ?_ ?_ hs2z hs2n
      · rw [hs2t, hs1t, h1, hbc]
        omega
      · intro q
        by_cases hq : (q : String) = k.project_key
        · subst hq
          rw [hs2p, hget1]
          omega
        · rw [hs2q q hq, hs1q q hq]
          have h2q := h2 q
          rw [projCost_cons, if_neg (by simp; exact fun he2 => hq he2.symm)] at h2q
          omega
    · simp only [sweepGo, hcond]
      rw [if_neg (by simp [hcond])]
      dsimp only
      have ihh := ih t (C + entryCost (k, e))
        (fun q => D q +
          if ((k.project_key : String) == q) = true then entryCost (k, e) else 0)
        ?_ ?_ h3 h4
      · obtain ⟨i1, i2, i3, i4⟩ := ihh
        refine ⟨?_, ?_, i3, i4⟩
        · rw [bucketsCost_cons]
          omega
        · intro q
          have hiq := i2 q
          dsimp only at hiq
          rw [projCost_cons]
          by_cases hq : ((k.project_key : String) == q) = true
          · rw [if_pos hq] at hiq ⊢
            omega
          · rw [if_neg hq] at hiq ⊢
            omega
      · rw [h1, bucketsCost_cons]
        omega
      · intro q
        dsimp only
        have h2q := h2 q
        rw [projCost_cons] at h2q
        by_cases hq : ((k.project_key : String) == q) = true
        · rw [if_pos hq] at h2q ⊢
          omega
        · rw [if_neg hq] at h2q ⊢
          omega

theorem reach_inv (cfg : AggregatorConfig) (st : Aggregator) (h : Reach cfg st) :
    AggInv st := by
  induction h with
  | init =>
    refine ⟨rfl, fun p => rfl, ?_, ?_⟩ <;> simp [Aggregator.new, CostTracker.default]
  | merge st flushAt key v st1 hr hm ih => exact merge_in_inv st flushAt key v st1 ih hm
  | sweep st now hr ih =>
    obtain ⟨h1, h2, h3, h4⟩ := ih
    have hs := sweepGo_inv (st.state == .shuttingDown) now st.config.bucket_interval
      st.buckets st.cost_tracker 0 (fun _ => 0) (by simpa using h1) (by simpa using h2)
      h3 h4
    obtain ⟨i1, i2, i3, i4⟩ := hs
    exact ⟨by simpa using i1, by simpa using i2, i3, i4⟩
  | shutdown st timeout hr ih =>
    obtain ⟨h1, h2, h3, h4⟩ := ih
    unfold Aggregator.handleShutdown
    split_ifs <;> exact ⟨h1, h2, h3, h4⟩

/-- C1: in every state reachable by successful merge_in calls, flush sweeps
and shutdown signals, the tracked total cost is the summed key+value cost of
the live entries, each per-project tracked cost is that sum over the
project's entries, no zero-cost per-project entry exists, and a forced full
drain (shutdown then sweep) empties the live map, zeroes the total and
empties the per-project map. -/
theorem c1_cost_conservation (cfg : AggregatorConfig) (st : Aggregator)
    (h : Reach cfg st) :
    st.cost_tracker.total_cost = bucketsCost st.buckets
    ∧ (∀ p, trackerGet st.cost_tracker.cost_per_project_key p = projCost p st.buckets)
    ∧ (∀ kv ∈ st.cost_tracker.cost_per_project_key, kv.2 ≠ 0)
    ∧ (∀ now,
        ((st.handleShutdown (Option.some 0)).pop_flush_buckets now).2.buckets = []
        ∧ ((st.handleShutdown (Option.some 0)).pop_flush_buckets now).2.cost_tracker.total_cost = 0
        ∧ ((st.handleShutdown (Option.some 0)).pop_flush_buckets now).2.cost_tracker.cost_per_project_key = []) := by
  obtain ⟨h1, h2, h3, h4⟩ := reach_inv cfg st h
  refine ⟨h1, h2, h3, ?_⟩
  intro now
  have hbk : (st.handleShutdown (Option.some 0)).buckets = st.buckets := rfl
  have htr : (st.handleShutdown (Option.some 0)).cost_tracker = st.cost_tracker := rfl
  have hforce : ((st.handleShutdown (Option.some 0)).state ==
      AggregatorState.shuttingDown) = true := rfl
  have hcfg : (st.handleShutdown (Option.some 0)).config = st.config := rfl
  have hpop : ((st.handleShutdown (Option.some 0)).pop_flush_buckets now).2.buckets =
      (sweepGo true now st.config.bucket_interval st.buckets st.cost_tracker).1 := by
    simp only [Aggregator.pop_flush_buckets, hforce, hbk, htr, hcfg]
  have hpopt : ((st.handleShutdown (Option.some 0)).pop_flush_buckets now).2.cost_tracker =
      (sweepGo true now st.config.bucket_interval st.buckets st.cost_tracker).2.1 := by
    simp only [Aggregator.pop_flush_buckets, hforce, hbk, htr, hcfg]
  have hnil := sweepGo_force_nil now st.config.bucket_interval st.buckets st.cost_tracker
  have hs := sweepGo_inv true now st.config.bucket_interval st.buckets st.cost_tracker
    0 (fun _ => 0) (by simpa using h1) (by simpa using h2) h3 h4
  obtain ⟨i1, i2, i3, i4⟩ := hs
  refine ⟨by rw [hpop, hnil], ?_, ?_⟩
  · rw [hpopt, i1, hnil]
    simp [bucketsCost]
  · rw [hpopt]
    refine tracker_nil_of_get_zero _ i3 ?_
    intro p
    rw [i2 p, hnil]
    simp [projCost]

/-- C1 witness: after one successful counter merge into a fresh aggregator
the invariant holds concretely, and a shutdown followed by a sweep zeroes
the total and empties the per-project map. -/
theorem c1_cost_conservation_witness :
    (((Aggregator.new AggregatorConfig.default).merge_in 7
        { project_key := "p"
          timestamp := 1000000
          metric_name := RString.ofString "c:foo"
          metric_type := .counter
          metric_unit := MetricUnit.none
          tags := [] }
        (.metric (.counter 3))).2.cost_tracker.total_cost =
      bucketsCost ((Aggregator.new AggregatorConfig.default).merge_in 7
        { project_key := "p"
          timestamp := 1000000
          metric_name := RString.ofString "c:foo"
          metric_type := .counter
          metric_unit := MetricUnit.none
          tags := [] }
        (.metric (.counter 3))).2.buckets)
    ∧ ((((Aggregator.new AggregatorConfig.default).merge_in 7
        { project_key := "p"
          timestamp := 1000000
          metric_name := RString.ofString "c:foo"
          metric_type := .counter
          metric_unit := MetricUnit.none
          tags := [] }
        (.metric (.counter 3))).2.handleShutdown (Option.some 0)).pop_flush_buckets
          99).2.cost_tracker.total_cost = 0
    ∧ ((((Aggregator.new AggregatorConfig.default).merge_in 7
        { project_key := "p"
          timestamp := 1000000
          metric_name := RString.ofString "c:foo"
          metric_type := .counter
          metric_unit := MetricUnit.none
          tags := [] }
        (.metric (.counter 3))).2.handleShutdown (Option.some 0)).pop_flush_buckets
          99).2.cost_tracker.cost_per_project_key = [] := by
  have h := c1_cost_conservation AggregatorConfig.default
    ((Aggregator.new AggregatorConfig.default).merge_in 7
      { project_key := "p"
        timestamp := 1000000
        metric_name := RString.ofString "c:foo"
        metric_type := .counter
        metric_unit := MetricUnit.none
        tags := [] }
      (.metric (.counter 3))).2
    (Reach.merge (Aggregator.new AggregatorConfig.default) 7
      { project_key := "p"
        timestamp := 1000000
        metric_name := RString.ofString "c:foo"
        metric_type := .counter
        metric_unit := MetricUnit.none
        tags := [] }
      (.metric (.counter 3)) _ Reach.init rfl)
  exact ⟨h.1, (h.2.2.2 99).2.1, (h.2.2.2 99).2.2⟩

theorem asU64_natCast (n : ℕ) (h : n < 2 ^ 64) :
    asU64 (.num (n : ℚ)) = Option.some n := by
  simp [asU64, isU64q, Rat.den_natCast, Rat.num_natCast]
  omega

theorem asU32_natCast (n : ℕ) (h : n < 2 ^ 32) :
    asU32 (.num (n : ℚ)) = Option.some n := by
  simp [asU32, isU32q, Rat.den_natCast, Rat.num_natCast]
  omega

theorem parseQList_map (l : List ℚ) : parseQList (l.map Json.num) = Option.some l := by
  induction l with
  | nil => rfl
  | cons q rest ih => simp [parseQList, asQ, ih]

theorem parseU32List_step (j : Json) (rest : List Json) (n : ℕ)
    (h : asU32 j = Option.some n) (l : List ℕ)
    (hr : parseU32List rest = Option.some l) :
    parseU32List (j :: rest) = Option.some (n :: l) := by
  simp only [parseU32List, h, hr]
  rfl

theorem parseU32List_map (l : List ℕ) (h : ∀ x ∈ l, x < 2 ^ 32) :
    parseU32List (l.map fun n : ℕ => Json.num (n : ℚ)) = Option.some l := by
  induction l with
  | nil => rfl
  | cons n rest ih =>
    rw [List.map_cons]
    exact parseU32List_step _ _ _ (asU32_natCast n (h n (List.mem_cons_self _ _)))
      _ (ih (fun x hx => h x (List.mem_cons_of_mem _ hx)))

theorem parseTagPairs_map (l : List (String × String)) :
    parseTagPairs (l.map fun kv => (kv.1, Json.str kv.2)) = Option.some l := by
  induction l with
  | nil => rfl
  | cons kv rest ih => simp [parseTagPairs, asStr, ih]

theorem dbump_keys_sub (l : List (ℚ × ℕ)) (v : ℚ) (n : ℕ) :
    ∀ x ∈ (dbump l v n).map Prod.fst, x ∈ l.map Prod.fst ∨ x = v := by
  induction l with
  | nil => simp [dbump]
  | cons wc rest ih =>
    obtain ⟨w, c⟩ := wc
    intro x hx
    simp only [dbump] at hx
    split_ifs at hx with h1 h2
    · simp only [List.map_cons, List.mem_cons] at hx ⊢
      tauto
    · simp only [List.map_cons, List.mem_cons] at hx ⊢
      tauto
    · simp only [List.map_cons, List.mem_cons] at hx ⊢
      rcases hx with h3 | h3
      · tauto
      · rcases ih x h3 with h4 | h4 <;> tauto

theorem dbump_sorted (l : List (ℚ × ℕ)) (v : ℚ) (n : ℕ)
    (h : (l.map Prod.fst).Sorted (· < ·)) :
    ((dbump l v n).map Prod.fst).Sorted (· < ·) := by
  induction l with
  | nil => simp [dbump]
  | cons wc rest ih =>
    obtain ⟨w, c⟩ := wc
    simp only [List.map_cons, List.sorted_cons] at h
    simp only [dbump]
    split_ifs with h1 h2
    · simp only [List.map_cons, List.sorted_cons]
      exact h
    · simp only [List.map_cons, List.sorted_cons]
      refine ⟨?_, h.1, h.2⟩
      intro b hb
      simp only [List.map_cons, List.mem_cons] at hb
      rcases hb with h3 | h3
      · subst h3
        exact h2
      · exact lt_trans h2 (h.1 b h3)
    · simp only [List.map_cons, List.sorted_cons]
      refine ⟨?_, ih h.2⟩
      intro b hb
      rcases dbump_keys_sub rest v n b hb with h3 | h3
      · exact h.1 b h3
      · subst h3
        push_neg at h1 h2
        exact lt_of_le_of_ne h2 (fun he => h1 he.symm)

theorem expandL_eq (d : DistributionValue) :
    d.expand = d.values.flatMap (fun vc => List.replicate vc.2 vc.1) := rfl

theorem dbump_expand (l : List (ℚ × ℕ)) (v : ℚ) (n : ℕ)
    (hk : ∀ x ∈ l.map Prod.fst, x ≤ v) (hs : (l.map Prod.fst).Sorted (· < ·)) :
    (dbump l v n).flatMap (fun vc => List.replicate vc.2 vc.1) =
      l.flatMap (fun vc => List.replicate vc.2 vc.1) ++ List.replicate n v := by
  induction l with
  | nil => simp [dbump]
  | cons wc rest ih =>
    obtain ⟨w, c⟩ := wc
    have hwv : w ≤ v := hk w (by simp)
    simp only [List.map_cons, List.sorted_cons] at hs
    simp only [dbump]
    split_ifs with h1 h2
    · subst h1
      cases rest with
      | nil =>
        simp only [List.flatMap_cons, List.flatMap_nil, List.append_nil]
        exact List.replicate_add c n _
      | cons wc2 rest2 =>
        exfalso
        have h3 := hs.1 wc2.1 (by simp)
        have h4 := hk wc2.1 (by simp)
        exact absurd h4 (not_le.mpr h3)
    · exact absurd h2 (not_lt.mpr hwv)
    · simp only [List.flatMap_cons]
      rw [ih (fun x hx => hk x (List.mem_cons_of_mem _ hx)) hs.2]
      simp [List.append_assoc]

theorem buildDist_spec (l : List ℚ) (h : l.Sorted (· ≤ ·)) :
    (buildDist l).expand = l
    ∧ ((buildDist l).values.map Prod.fst).Sorted (· < ·)
    ∧ (∀ x ∈ (buildDist l).values.map Prod.fst, x ∈ l) := by
  induction l using List.reverseRecOn with
  | nil => exact ⟨rfl, by simp [buildDist, DistributionValue.new], by simp [buildDist, DistributionValue.new]⟩
  | append_singleton l x ih =>
    have hsl : l.Sorted (· ≤ ·) := h.sublist (List.sublist_append_left l [x])
    have hle : ∀ y ∈ l, y ≤ x := by
      have := (List.pairwise_append.mp h).2.2
      intro y hy
      exact this y hy x (by simp)
    obtain ⟨ih1, ih2, ih3⟩ := ih hsl
    have hfold : buildDist (l ++ [x]) = (buildDist l).insert x := by
      simp [buildDist, List.foldl_append]
    have hkx : ∀ y ∈ (buildDist l).values.map Prod.fst, y ≤ x :=
      fun y hy => hle y (ih3 y hy)
    have hins : ((buildDist l).insert x).values = dbump (buildDist l).values x 1 := by
      simp [DistributionValue.insert, DistributionValue.insertMulti]
    refine ⟨?_, ?_, ?_⟩
    · rw [hfold, expandL_eq, hins, dbump_expand _ _ _ hkx ih2]
      rw [expandL_eq] at ih1
      simp [ih1]
    · rw [hfold, hins]
      exact dbump_sorted _ _ _ ih2
    · rw [hfold, hins]
      intro y hy
      rcases dbump_keys_sub _ _ _ y hy with h3 | h3
      · exact List.mem_append_left _ (ih3 y h3)
      · subst h3
        simp

theorem sinsert_append (l : List ℕ) (x : ℕ) (h : ∀ y ∈ l, y < x) :
    sinsert l x = l ++ [x] := by
  induction l with
  | nil => rfl
  | cons y rest ih =>
    have hy := h y (by simp)
    simp only [sinsert]
    rw [if_neg (by omega), if_neg (by omega)]
    rw [ih (fun z hz => h z (List.mem_cons_of_mem _ hz))]
    rfl

theorem buildSet_spec (l : List ℕ) (h : l.Sorted (· < ·)) : buildSet l = l := by
  induction l using List.reverseRecOn with
  | nil => rfl
  | append_singleton l x ih =>
    have hsl : l.Sorted (· < ·) := h.sublist (List.sublist_append_left l [x])
    have hlt : ∀ y ∈ l, y < x := by
      have := (List.pairwise_append.mp h).2.2
      intro y hy
      exact this y hy x (by simp)
    have hfold : buildSet (l ++ [x]) = sinsert (buildSet l) x := by
      simp [buildSet, List.foldl_append]
    rw [hfold, ih hsl, sinsert_append l x hlt]

theorem tbump_append (l : List (String × String)) (k v : String)
    (h : ∀ kv ∈ l, kv.1 < k) : tbump l k v = l ++ [(k, v)] := by
  induction l with
  | nil => rfl
  | cons kv0 rest ih =>
    obtain ⟨k0, v0⟩ := kv0
    have hk0 : k0 < k := h (k0, v0) (by simp)
    simp only [tbump]
    rw [if_neg (by exact fun he => absurd (he ▸ hk0) (lt_irrefl k)),
      if_neg (not_lt.mpr (le_of_lt hk0)),
      ih (fun z hz => h z (List.mem_cons_of_mem _ hz))]
    rfl

theorem buildTags_spec (l : List (String × String))
    (h : (l.map Prod.fst).Sorted (· < ·)) : buildTags l = l := by
  induction l using List.reverseRecOn with
  | nil => rfl
  | append_singleton l x ih =>
    obtain ⟨k, v⟩ := x
    rw [List.map_append] at h
    have hsl : (l.map Prod.fst).Sorted (· < ·) :=
      h.sublist (List.sublist_append_left _ _)
    have hlt : ∀ kv ∈ l, kv.1 < k := by
      have h2 := (List.pairwise_append.mp h).2.2
      intro kv hkv
      exact h2 kv.1 (List.mem_map_of_mem Prod.fst hkv) k (by simp)
    have hfold : buildTags (l ++ [(k, v)]) = tbump (buildTags l) k v := by
      simp [buildTags, List.foldl_append]
    rw [hfold, ih hsl, tbump_append l k v hlt]

set_option maxRecDepth 8192 in
theorem parse_serialize_value (ty : String) (v : Json) (h : CanonicalValue ty v) :
    ∃ bv : BucketValue, parseBucketValue ty v = Option.some bv
      ∧ bv.tyTag = ty ∧ serializeBucketValue bv = v := by
  cases h with
  | counter q => exact ⟨.counter q, rfl, rfl, rfl⟩
  | distribution l hl =>
    obtain ⟨e1, e2, e3⟩ := buildDist_spec l hl
    refine ⟨.distribution (buildDist l), ?_, rfl, ?_⟩
    · simp only [parseBucketValue, parseQList_map l]
      rfl
    · simp only [serializeBucketValue, e1]
  | set l hl hb =>
    have hbuild := buildSet_spec l hl
    refine ⟨.set (buildSet l), ?_, rfl, ?_⟩
    · simp only [parseBucketValue, parseU32List_map l hb]
      rfl
    · simp only [serializeBucketValue, hbuild]
  | gauge mx mn sm lst c hc =>
    refine ⟨.gauge ⟨mx, mn, sm, lst, c⟩, ?_, rfl, rfl⟩
    have e1 : jlookup [("max", Json.num mx), ("min", Json.num mn), ("sum", Json.num sm),
        ("last", Json.num lst), ("count", Json.num (c : ℚ))] "max" =
        Option.some (Json.num mx) := rfl
    have e2 : jlookup [("max", Json.num mx), ("min", Json.num mn), ("sum", Json.num sm),
        ("last", Json.num lst), ("count", Json.num (c : ℚ))] "min" =
        Option.some (Json.num mn) := rfl
    have e3 : jlookup [("max", Json.num mx), ("min", Json.num mn), ("sum", Json.num sm),
        ("last", Json.num lst), ("count", Json.num (c : ℚ))] "sum" =
        Option.some (Json.num sm) := rfl
    have e4 : jlookup [("max", Json.num mx), ("min", Json.num mn), ("sum", Json.num sm),
        ("last", Json.num lst), ("count", Json.num (c : ℚ))] "last" =
        Option.some (Json.num lst) := rfl
    have e5 : jlookup [("max", Json.num mx), ("min", Json.num mn), ("sum", Json.num sm),
        ("last", Json.num lst), ("count", Json.num (c : ℚ))] "count" =
        Option.some (Json.num (c : ℚ)) := rfl
    have g1 : ((jlookup [("max", Json.num mx), ("min", Json.num mn), ("sum", Json.num sm),
        ("last", Json.num lst), ("count", Json.num (c : ℚ))] "max").bind asQ) =
        Option.some mx := by
      rw [e1]
      rfl
    have g2 : ((jlookup [("max", Json.num mx), ("min", Json.num mn), ("sum", Json.num sm),
        ("last", Json.num lst), ("count", Json.num (c : ℚ))] "min").bind asQ) =
        Option.some mn := by
      rw [e2]
      rfl
    have g3 : ((jlookup [("max", Json.num mx), ("min", Json.num mn), ("sum", Json.num sm),
        ("last", Json.num lst), ("count", Json.num (c : ℚ))] "sum").bind asQ) =
        Option.some sm := by
      rw [e3]
      rfl
    have g4 : ((jlookup [("max", Json.num mx), ("min", Json.num mn), ("sum", Json.num sm),
        ("last", Json.num lst), ("count", Json.num (c : ℚ))] "last").bind asQ) =
        Option.some lst := by
      rw [e4]
      rfl
    have g5 : ((jlookup [("max", Json.num mx), ("min", Json.num mn), ("sum", Json.num sm),
        ("last", Json.num lst), ("count", Json.num (c : ℚ))] "count").bind asU64) =
        Option.some c := by
      rw [e5, Option.some_bind, asU64_natCast c hc]
    show ((jlookup [("max", Json.num mx), ("min", Json.num mn), ("sum", Json.num sm),
        ("last", Json.num lst), ("count", Json.num (c : ℚ))] "max").bind asQ).bind
      (fun mx0 =>
        ((jlookup [("max", Json.num mx), ("min", Json.num mn), ("sum", Json.num sm),
          ("last", Json.num lst), ("count", Json.num (c : ℚ))] "min").bind asQ).bind
        (fun mn0 =>
          ((jlookup [("max", Json.num mx), ("min", Json.num mn), ("sum", Json.num sm),
            ("last", Json.num lst), ("count", Json.num (c : ℚ))] "sum").bind asQ).bind
          (fun sm0 =>
            ((jlookup [("max", Json.num mx), ("min", Json.num mn), ("sum", Json.num sm),
              ("last", Json.num lst), ("count", Json.num (c : ℚ))] "last").bind asQ).bind
            (fun lst0 =>
              ((jlookup [("max", Json.num mx), ("min", Json.num mn), ("sum", Json.num sm),
                ("last", Json.num lst), ("count", Json.num (c : ℚ))] "count").bind
                  asU64).map
              (fun c0 => BucketValue.gauge ⟨mx0, mn0, sm0, lst0, c0⟩))))) =
      Option.some (BucketValue.gauge ⟨mx, mn, sm, lst, c⟩)
    rw [g1, g2, g3, g4, g5]
    rfl

theorem parse_obj_spec (fs : List (String × Json)) (ts w : ℕ)
    (hts : ts < 2 ^ 64) (hw : w < 2 ^ 64) (name ty : String) (v : Json)
    (bv : BucketValue) (hbv : parseBucketValue ty v = Option.some bv)
    (unit : MetricUnit) (pairs : List (String × String))
    (h1 : jlookup fs "timestamp" = Option.some (Json.num (ts : ℚ)))
    (h2 : jlookup fs "width" = Option.some (Json.num (w : ℚ)))
    (h3 : jlookup fs "name" = Option.some (Json.str name))
    (h4 : jlookup fs "type" = Option.some (Json.str ty))
    (h5 : jlookup fs "value" = Option.some v)
    (h6 : parseUnitField fs = Option.some unit)
    (h7 : parseTagsField fs = Option.some pairs) :
    Bucket.parse (.obj fs) = Option.some
      { timestamp := ts
        width := w
        name := RString.ofString name
        unit := unit
        value := bv
        tags := (buildTags pairs).map
          (fun kv => (RString.ofString kv.1, RString.ofString kv.2)) } := by
  have a1 : (jlookup fs "timestamp").bind asU64 = Option.some ts := by
    rw [h1, Option.some_bind, asU64_natCast ts hts]
  have a2 : (jlookup fs "width").bind asU64 = Option.some w := by
    rw [h2, Option.some_bind, asU64_natCast w hw]
  have a3 : (jlookup fs "name").bind asStr = Option.some name := by
    rw [h3]
    rfl
  have a4 : (jlookup fs "type").bind asStr = Option.some ty := by
    rw [h4]
    rfl
  show ((jlookup fs "timestamp").bind asU64).bind (fun ts =>
      ((jlookup fs "width").bind asU64).bind (fun w =>
        ((jlookup fs "name").bind asStr).bind (fun name =>
          ((jlookup fs "type").bind asStr).bind (fun ty =>
            (jlookup fs "value").bind (fun v =>
              (parseBucketValue ty v).bind (fun value =>
                (parseUnitField fs).bind (fun unit =>
                  (parseTagsField fs).map (fun pairs =>
                    ({ timestamp := ts
                       width := w
                       name := RString.ofString name
                       unit := unit
                       value := value
                       tags := (buildTags pairs).map
                         (fun kv =>
                           (RString.ofString kv.1, RString.ofString kv.2)) } :
                      Bucket))))))))) =
    Option.some
      { timestamp := ts
        width := w
        name := RString.ofString name
        unit := unit
        value := bv
        tags := (buildTags pairs).map
          (fun kv => (RString.ofString kv.1, RString.ofString kv.2)) }
  rw [a1, a2, a3, a4, h5]
  show (parseBucketValue ty v).bind (fun value =>
      (parseUnitField fs).bind (fun unit =>
        (parseTagsField fs).map (fun pairs =>
          ({ timestamp := ts
             width := w
             name := RString.ofString name
             unit := unit
             value := value
             tags := (buildTags pairs).map
               (fun kv => (RString.ofString kv.1, RString.ofString kv.2)) } :
            Bucket)))) =
    Option.some
      { timestamp := ts
        width := w
        name := RString.ofString name
        unit := unit
        value := bv
        tags := (buildTags pairs).map
          (fun kv => (RString.ofString kv.1, RString.ofString kv.2)) }
  rw [hbv, h6, h7]
  rfl

theorem serializeTags_ofString (tags : List (String × String)) :
    serializeTags (tags.map (fun kv => (RString.ofString kv.1, RString.ofString kv.2))) =
      Json.obj (tags.map (fun kv => (kv.1, Json.str kv.2))) := by
  induction tags with
  | nil => rfl
  | cons kv rest ih =>
    simp only [serializeTags, List.map_cons] at ih ⊢
    rw [Json.obj.injEq] at ih ⊢
    rw [List.cons.injEq]
    exact ⟨rfl, ih⟩

theorem parse_serialize_bucket (j : Json) (h : CanonicalBucket j) :
    ∃ b : Bucket, Bucket.parse j = Option.some b ∧ Bucket.serialize b = j := by
  cases h with
  | mk ts w hts hw name unit hu ty v hv tags htags =>
    obtain ⟨bv, hbv, hty, hser⟩ := parse_serialize_value ty v hv
    cases unit with
    | none =>
      cases tags with
      | nil =>
        have hparse := parse_obj_spec
          [("timestamp", Json.num (ts : ℚ)), ("width", Json.num (w : ℚ)),
           ("name", Json.str name), ("type", Json.str ty), ("value", v)]
          ts w hts hw name ty v bv hbv MetricUnit.none [] rfl rfl rfl rfl rfl rfl rfl
        refine ⟨_, hparse, ?_⟩
        rw [show Bucket.serialize
            { timestamp := ts
              width := w
              name := RString.ofString name
              unit := MetricUnit.none
              value := bv
              tags := (buildTags ([] : List (String × String))).map
                (fun kv => (RString.ofString kv.1, RString.ofString kv.2)) } =
          Json.obj [("timestamp", Json.num (ts : ℚ)), ("width", Json.num (w : ℚ)),
            ("name", Json.str name), ("type", Json.str bv.tyTag),
            ("value", serializeBucketValue bv)] from rfl]
        rw [hty, hser]
        rfl
      | cons t rest =>
        have h7 : parseTagsField
            [("timestamp", Json.num (ts : ℚ)), ("width", Json.num (w : ℚ)),
             ("name", Json.str name), ("type", Json.str ty), ("value", v),
             ("tags", Json.obj ((t :: rest).map (fun kv => (kv.1, Json.str kv.2))))] =
            Option.some (t :: rest) := by
          rw [show parseTagsField
              [("timestamp", Json.num (ts : ℚ)), ("width", Json.num (w : ℚ)),
               ("name", Json.str name), ("type", Json.str ty), ("value", v),
               ("tags", Json.obj ((t :: rest).map (fun kv => (kv.1, Json.str kv.2))))] =
            parseTagPairs ((t :: rest).map (fun kv => (kv.1, Json.str kv.2))) from rfl,
            parseTagPairs_map]
        have hparse := parse_obj_spec
          [("timestamp", Json.num (ts : ℚ)), ("width", Json.num (w : ℚ)),
           ("name", Json.str name), ("type", Json.str ty), ("value", v),
           ("tags", Json.obj ((t :: rest).map (fun kv => (kv.1, Json.str kv.2))))]
          ts w hts hw name ty v bv hbv MetricUnit.none (t :: rest)
          rfl rfl rfl rfl rfl rfl h7
        rw [buildTags_spec (t :: rest) htags] at hparse
        refine ⟨_, hparse, ?_⟩
        rw [show Bucket.serialize
            { timestamp := ts
              width := w
              name := RString.ofString name
              unit := MetricUnit.none
              value := bv
              tags := (t :: rest).map
                (fun kv => (RString.ofString kv.1, RString.ofString kv.2)) } =
          Json.obj ([("timestamp", Json.num (ts : ℚ)), ("width", Json.num (w : ℚ)),
            ("name", Json.str name), ("type", Json.str bv.tyTag),
            ("value", serializeBucketValue bv)] ++
            [("tags", serializeTags ((t :: rest).map
              (fun kv => (RString.ofString kv.1, RString.ofString kv.2))))]) from rfl]
        rw [hty, hser, serializeTags_ofString (t :: rest)]
        rfl
    | some u =>
      have hofu : MetricUnit.ofString u = Option.some u := by
        unfold MetricUnit.ofString
        rw [if_neg (hu u rfl)]
      cases tags with
      | nil =>
        have h6 : parseUnitField
            [("timestamp", Json.num (ts : ℚ)), ("width", Json.num (w : ℚ)),
             ("name", Json.str name), ("unit", Json.str u), ("type", Json.str ty),
             ("value", v)] = Option.some (Option.some u) := by
          rw [show parseUnitField
              [("timestamp", Json.num (ts : ℚ)), ("width", Json.num (w : ℚ)),
               ("name", Json.str name), ("unit", Json.str u), ("type", Json.str ty),
               ("value", v)] = Option.some (MetricUnit.ofString u) from rfl, hofu]
        have hparse := parse_obj_spec
          [("timestamp", Json.num (ts : ℚ)), ("width", Json.num (w : ℚ)),
           ("name", Json.str name), ("unit", Json.str u), ("type", Json.str ty),
           ("value", v)]
          ts w hts hw name ty v bv hbv (Option.some u) []
          rfl rfl rfl rfl rfl h6 rfl
        refine ⟨_, hparse, ?_⟩
        rw [show Bucket.serialize
            { timestamp := ts
              width := w
              name := RString.ofString name
              unit := Option.some u
              value := bv
              tags := (buildTags ([] : List (String × String))).map
                (fun kv => (RString.ofString kv.1, RString.ofString kv.2)) } =
          Json.obj ([("timestamp", Json.num (ts : ℚ)), ("width", Json.num (w : ℚ)),
            ("name", Json.str name), ("unit", Json.str u),
            ("type", Json.str bv.tyTag),
            ("value", serializeBucketValue bv)]) from rfl]
        rw [hty, hser]
        rfl
      | cons t rest =>
        have h6 : parseUnitField
            [("timestamp", Json.num (ts : ℚ)), ("width", Json.num (w : ℚ)),
             ("name", Json.str name), ("unit", Json.str u), ("type", Json.str ty),
             ("value", v),
             ("tags", Json.obj ((t :: rest).map (fun kv => (kv.1, Json.str kv.2))))] =
            Option.some (Option.some u) := by
          rw [show parseUnitField
              [("timestamp", Json.num (ts : ℚ)), ("width", Json.num (w : ℚ)),
               ("name", Json.str name), ("unit", Json.str u), ("type", Json.str ty),
               ("value", v),
               ("tags", Json.obj ((t :: rest).map (fun kv => (kv.1, Json.str kv.2))))] =
            Option.some (MetricUnit.ofString u) from rfl, hofu]
        have h7 : parseTagsField
            [("timestamp", Json.num (ts : ℚ)), ("width", Json.num (w : ℚ)),
             ("name", Json.str name), ("unit", Json.str u), ("type", Json.str ty),
             ("value", v),
             ("tags", Json.obj ((t :: rest).map (fun kv => (kv.1, Json.str kv.2))))] =
            Option.some (t :: rest) := by
          rw [show parseTagsField
              [("timestamp", Json.num (ts : ℚ)), ("width", Json.num (w : ℚ)),
               ("name", Json.str name), ("unit", Json.str u), ("type", Json.str ty),
               ("value", v),
               ("tags", Json.obj ((t :: rest).map (fun kv => (kv.1, Json.str kv.2))))] =
            parseTagPairs ((t :: rest).map (fun kv => (kv.1, Json.str kv.2))) from rfl,
            parseTagPairs_map]
        have hparse := parse_obj_spec
          [("timestamp", Json.num (ts : ℚ)), ("width", Json.num (w : ℚ)),
           ("name", Json.str name), ("unit", Json.str u), ("type", Json.str ty),
           ("value", v),
           ("tags", Json.obj ((t :: rest).map (fun kv => (kv.1, Json.str kv.2))))]
          ts w hts hw name ty v bv hbv (Option.some u) (t :: rest)
          rfl rfl rfl rfl rfl h6 h7
        rw [buildTags_spec (t :: rest) htags] at hparse
        refine ⟨_, hparse, ?_⟩
        rw [show Bucket.serialize
            { timestamp := ts
              width := w
              name := RString.ofString name
              unit := Option.some u
              value := bv
              tags := (t :: rest).map
                (fun kv => (RString.ofString kv.1, RString.ofString kv.2)) } =
          Json.obj ([("timestamp", Json.num (ts : ℚ)), ("width", Json.num (w : ℚ)),
            ("name", Json.str name), ("unit", Json.str u),
            ("type", Json.str bv.tyTag),
            ("value", serializeBucketValue bv)] ++
            [("tags", serializeTags ((t :: rest).map
              (fun kv => (RString.ofString kv.1, RString.ofString kv.2))))]) from rfl]
        rw [hty, hser, serializeTags_ofString (t :: rest)]
        rfl

/-- C5: Parsing a bucket list in the canonical JSON form of the wire format
(fields in the order timestamp, width, name, unit, type, value, tags; unit
omitted when none; tags omitted when empty) and serializing it again yields
output identical to the input, for all four value variants ("c" as a number,
"d" as an ascending array of samples, "s" as an ascending array of 32-bit
integers, "g" as the max/min/sum/last/count object). -/
theorem c5_wire_round_trip (j : Json) (h : CanonicalBuckets j) :
    ∃ bs : List Bucket, Bucket.parse_all j = Option.some bs ∧
      Bucket.serialize_all bs = j := by
  cases h with
  | mk l hl =>
    suffices h : ∃ bs, parseBucketList l = Option.some bs ∧
        bs.map Bucket.serialize = l by
      obtain ⟨bs, h1, h2⟩ := h
      refine ⟨bs, ?_, ?_⟩
      · rw [show Bucket.parse_all (.arr l) = parseBucketList l from rfl, h1]
      · rw [show Bucket.serialize_all bs = Json.arr (bs.map Bucket.serialize) from rfl,
          h2]
    induction l with
    | nil => exact ⟨[], rfl, rfl⟩
    | cons j rest ih =>
      obtain ⟨b, hb1, hb2⟩ := parse_serialize_bucket j (hl j (List.mem_cons_self _ _))
      obtain ⟨bs, h1, h2⟩ := ih (fun x hx => hl x (List.mem_cons_of_mem _ hx))
      refine ⟨b :: bs, ?_, ?_⟩
      · simp only [parseBucketList]
        rw [hb1, h1]
        rfl
      · rw [List.map_cons, hb2, h2]

/-- Concrete round trip of a one-element canonical counter payload through
Bucket.parse_all and Bucket.serialize_all. -/
theorem c5_wire_round_trip_witness :
    ∃ bs : List Bucket,
      Bucket.parse_all (Json.arr [Json.obj
        [("timestamp", Json.num ((1615889440 : ℕ) : ℚ)),
         ("width", Json.num ((10 : ℕ) : ℚ)),
         ("name", Json.str "c:foo"),
         ("type", Json.str "c"),
         ("value", Json.num (17 : ℚ))]]) = Option.some bs ∧
      Bucket.serialize_all bs = Json.arr [Json.obj
        [("timestamp", Json.num ((1615889440 : ℕ) : ℚ)),
         ("width", Json.num ((10 : ℕ) : ℚ)),
         ("name", Json.str "c:foo"),
         ("type", Json.str "c"),
         ("value", Json.num (17 : ℚ))]] :=
  c5_wire_round_trip _ (CanonicalBuckets.mk _ (by
    intro j hj
    rw [List.mem_singleton] at hj
    subst hj
    exact CanonicalBucket.mk 1615889440 10 (by norm_num) (by norm_num) "c:foo"
      Option.none (fun u h => Option.noConfusion h) "c" (Json.num (17 : ℚ))
      (CanonicalValue.counter 17) [] List.sorted_nil))

end Relay
